import Mathlib

/-!
Verification development for the ENVI hyperspectral codec `envi2.py`
(functions `parse_envi_header`, `write_envi`, `bytes_to_cube`,
`cube_to_bytes`, `normalize_envi_cube`, `read_envi`).

The Python code is shallowly embedded: strings become `List Char`,
Python `dict`s become insertion-ordered association lists with
replace-in-place update (`dictInsert`), numpy byte buffers become a
length plus a byte-indexed function, and numpy arrays become a shape
plus an index function, with every `reshape`/`swapaxes` call embedded
by its documented index semantics.  Machine floats appearing as header
values are modelled as exact decimal numbers (`Dec`), which is faithful
for serialize/parse round trips because CPython renders a float as the
shortest decimal literal that parses back to it.  Cube elements are
modelled by their byte-level representation (a `Nat` below `256^width`),
which is faithful for all layout and round-trip reasoning.  Python
exceptions become the `PyErr` error type of an `Except` monad.
-/

namespace Envi

/-- Python exception kinds raised by the embedded code.  `valueError`
carries the message; messages with interpolated runtime values are kept
only where a claim depends on them. -/
inductive PyErr where
  | valueError (msg : String)
  | keyError (key : String)
  | typeError (msg : String)
  | attributeError
  | indexError
deriving DecidableEq, Repr

/-- The brace character, kept abstract as a code point. -/
def lbrace : Char := Char.ofNat 123

/-- The closing brace character. -/
def rbrace : Char := Char.ofNat 125

/-- The double quote character. -/
def dquote : Char := Char.ofNat 34

/-- Characters removed by Python `str.strip()` (ASCII whitespace). -/
def isSpaceCh (c : Char) : Bool :=
  c == ' ' || c == '\t' || c == '\n' || c == '\x0d' || c == '\x0b' || c == '\x0c'

/-- Python `str.strip()` on a character list: drop whitespace from both ends. -/
def pyStrip (l : List Char) : List Char :=
  ((l.dropWhile isSpaceCh).reverse.dropWhile isSpaceCh).reverse

/-- Python `str.lower()`; the headers handled here are ASCII, where
Lean's `Char.toLower` agrees with Python. -/
def pyLowerStr (s : String) : String :=
  String.mk (s.data.map Char.toLower)

/-- Decimal digit to its character. -/
def digitChar (d : Nat) : Char := Char.ofNat (48 + d)

/-- Character to its decimal digit value. -/
def charDigit (c : Char) : Nat := c.toNat - 48

/-- Decimal digits of `n`, most significant first; fuel-driven so that it
reduces definitionally (fuel `n+1` always suffices since `n / 10 < n`). -/
def natDigitsF : Nat → Nat → List Char
  | 0, _ => []
  | f + 1, n => if n < 10 then [digitChar n] else natDigitsF f (n / 10) ++ [digitChar (n % 10)]

/-- Decimal rendering of a natural number, as Python `str` produces it. -/
def natDigits (n : Nat) : List Char := natDigitsF (n + 1) n

/-- Value of a list of decimal digit characters (most significant first). -/
def charsVal (l : List Char) : Nat :=
  l.foldl (fun a c => 10 * a + charDigit c) 0

/-- Python `f"{v}"` on an `int`: optional minus sign, then decimal digits. -/
def renderIntChars (i : Int) : List Char :=
  if i < 0 then '-' :: natDigits i.natAbs else natDigits i.natAbs

/-- Python `int(s)`: strip whitespace, optional sign, then decimal digits only;
anything else raises `ValueError`. -/
def pyIntCore (l : List Char) : Except PyErr Int :=
  match pyStrip l with
  | [] => .error (.valueError "invalid literal for int")
  | c :: rest =>
    if c = '-' then
      if rest.isEmpty then .error (.valueError "invalid literal for int")
      else if rest.all Char.isDigit then .ok (-(charsVal rest : Int))
      else .error (.valueError "invalid literal for int")
    else if c = '+' then
      if rest.isEmpty then .error (.valueError "invalid literal for int")
      else if rest.all Char.isDigit then .ok ((charsVal rest : Int))
      else .error (.valueError "invalid literal for int")
    else if (c :: rest).all Char.isDigit then .ok ((charsVal (c :: rest) : Int))
    else .error (.valueError "invalid literal for int")

/-- Exact decimal model of a CPython `float` value as it appears in header
text: sign, integer part, and the list of fractional digits.  CPython's
`str`/`float` round trip is exact on such decimals, so serialize/parse
reasoning over `Dec` is faithful. -/
structure Dec where
  neg : Bool
  ip : Nat
  fr : List Nat
deriving DecidableEq, Repr

/-- Well-formedness of a `Dec`: fractional digits are single decimal digits. -/
def decWF (d : Dec) : Prop := ∀ x ∈ d.fr, x < 10

instance (d : Dec) : Decidable (decWF d) := by
  unfold decWF; infer_instance

/-- Python `f"{v}"` on this decimal model of a float: sign, integer digits,
point, fractional digits. -/
def renderDecChars (d : Dec) : List Char :=
  (if d.neg then ['-'] else []) ++ natDigits d.ip ++ '.' :: d.fr.map digitChar

/-- Rational value of a `Dec`. -/
def decVal (d : Dec) : ℚ :=
  (if d.neg then (-1 : ℚ) else 1) *
    ((d.ip : ℚ) + d.fr.foldr (fun dig acc => ((dig : ℚ) + acc) / 10) 0)

/-- Python `float(s)` restricted to plain decimal literals (optional sign,
digits, optional point and digits); the exponent, `inf` and `nan` forms of
the Python float grammar are never produced by this codec and are elided. -/
def pyFloatCore (l : List Char) : Except PyErr Dec :=
  match pyStrip l with
  | [] => .error (.valueError "could not convert string to float")
  | c :: rest =>
    let signed : Bool × List Char :=
      if c = '-' then (true, rest)
      else if c = '+' then (false, rest)
      else (false, c :: rest)
    let ds := signed.2.takeWhile Char.isDigit
    let r := signed.2.dropWhile Char.isDigit
    match r with
    | [] =>
      if ds.isEmpty then .error (.valueError "could not convert string to float")
      else .ok ⟨signed.1, charsVal ds, []⟩
    | p :: r' =>
      if p = '.' then
        let fs := r'.takeWhile Char.isDigit
        let r'' := r'.dropWhile Char.isDigit
        if r''.isEmpty then
          if ds.isEmpty && fs.isEmpty then .error (.valueError "could not convert string to float")
          else .ok ⟨signed.1, charsVal ds, fs.map charDigit⟩
        else .error (.valueError "could not convert string to float")
      else .error (.valueError "could not convert string to float")

/-- Python `str.split(sep)` for a single-character separator. -/
def splitOn (sep : Char) : List Char → List (List Char)
  | [] => [[]]
  | a :: r =>
    let rs := splitOn sep r
    if a = sep then [] :: rs
    else
      match rs with
      | [] => [[a]]
      | x :: xs => (a :: x) :: xs

/-- Header values after type fixing: the duck-typed Python values that
`parse_envi_header` and `write_envi` traffic in.  Timestamps store the
ISO string they were parsed from (`dateutil.parser.isoparse` is external
library code; only its identity as an opaque non-str, non-numeric object
matters to this codec).  `Decimal` triples reuse the exact decimal model. -/
inductive HVal where
  | vInt (n : Int)
  | vFlt (d : Dec)
  | vStr (s : String)
  | vIntList (xs : List Int)
  | vFltList (xs : List Dec)
  | vStrList (xs : List String)
  | vTime (s : String)
  | vTimeList (xs : List String)
  | vDecTuple (xs : List Dec)
  | vDecTupleList (xs : List (List Dec))
deriving DecidableEq, Repr

/-- A Python `dict` with string keys, modelled as its insertion-ordered
association list. -/
def PyDict (α : Type) : Type := List (String × α)

/-- Dictionary lookup (`d[k]` / `d.get(k)`), first matching key. -/
def pyLookup {α : Type} : List (String × α) → String → Option α
  | [], _ => none
  | (k', v) :: r, k => if k' = k then some v else pyLookup r k

/-- Python `d[k] = v`: replace in place if the key exists, else append. -/
def dictInsert {α : Type} : List (String × α) → String → α → List (String × α)
  | [], k, v => [(k, v)]
  | (k', v') :: r, k, v =>
    if k' = k then (k', v) :: r else (k', v') :: dictInsert r k v

/-- Parsed headers map lowercase keys to typed values. -/
abbrev Header := List (String × HVal)

/-! ## Header grammar parser (`parse_envi_header`)

The Python parser walks the text with explicit indices; index accesses
past the end raise `IndexError`.  The walking loops are embedded as
fuel-driven recursions whose fuel, supplied at each call site from the
input length, strictly exceeds the number of steps the loop can take,
so the fuel-exhaustion branch (also mapped to `indexError`) is
unreachable and the embedded functions compute exactly the source's
results. -/

/-- Raw header values before type fixing: a scalar line or a brace list. -/
inductive RawVal where
  | scalar (s : List Char)
  | list (xs : List (List Char))
deriving DecidableEq, Repr

/-- Python slice `ls[s:e]`. -/
def pySlice (l : List Char) (s e : Nat) : List Char :=
  (l.drop s).take (e - s)

/-- Embeds `parse_identifier`: scan to the next `=`; `IndexError` if the
input has none; returns the rest (starting at `=`) and the stripped prefix. -/
def parse_identifier (s : List Char) : Except PyErr (List Char × List Char) :=
  let pre := s.takeWhile (fun c => !(c == '='))
  let post := s.dropWhile (fun c => !(c == '='))
  if post.isEmpty then .error .indexError
  else .ok (post, pyStrip pre)

/-- Space or tab, the characters `parse_assignment` skips. -/
def spaceTab (c : Char) : Bool := c == ' ' || c == '\t'

/-- Embeds `parse_assignment`: skip spaces/tabs, require `=`, skip
spaces/tabs; scanning off the end of the input raises `IndexError`
(the explicit `ValueError('Expected "="')` arm is kept although
`parse_identifier` always stops exactly at an `=`). -/
def parse_assignment (s : List Char) : Except PyErr (List Char) :=
  match s.dropWhile spaceTab with
  | [] => .error .indexError
  | c :: rest =>
    if c = '=' then
      match rest.dropWhile spaceTab with
      | [] => .error .indexError
      | r => .ok r
    else .error (.valueError "Expected \x22=\x22")

/-- Embeds the inner `while ls[i] != '\x22'` scan of `parse_list`: the
index of the next double quote at or after `i`, or `IndexError`. -/
def quoteScan : Nat → List Char → Nat → Except PyErr Nat
  | 0, _, _ => .error .indexError
  | f + 1, ls, i =>
    match ls.get? i with
    | none => .error .indexError
    | some c => if c = dquote then .ok i else quoteScan f ls (i + 1)

/-- Embeds the element scan of `parse_list` (`while ls[i] != ',' and
ls[i] != '}'`), tracking the cursor `i` and the slice bounds `s`, `e`
exactly as the source mutates them, including the quote-handling arm. -/
def innerScan : Nat → List Char → Nat → Nat → Nat → Except PyErr (Nat × Nat × Nat)
  | 0, _, _, _, _ => .error .indexError
  | f + 1, ls, i, s, e =>
    match ls.get? i with
    | none => .error .indexError
    | some c =>
      if c = ',' || c = rbrace then .ok (i, s, e)
      else if c = dquote then
        match quoteScan (ls.length + 1) ls (i + 1) with
        | .error err => .error err
        | .ok j => innerScan f ls (j + 1) (i + 1) j
      else innerScan f ls (i + 1) s (i + 1)

/-- Embeds the outer `while ls[i] != '}'` loop of `parse_list`: one
element per iteration (slice `ls[s:e]`, stripped), optional comma skip,
then the closing check that `ls[i:i+2]` is the brace-newline pair. -/
def outerLoop : Nat → List Char → Nat → List (List Char) →
    Except PyErr (List Char × List (List Char))
  | 0, _, _, _ => .error .indexError
  | f + 1, ls, i, acc =>
    match ls.get? i with
    | none => .error .indexError
    | some c =>
      if c = rbrace then
        if ls.get? (i + 1) = some '\n' then .ok (ls.drop (i + 2), acc)
        else .error (.valueError "Expected \x7d")
      else
        match innerScan (ls.length + 1) ls i i 1 with
        | .error err => .error err
        | .ok (i', s', e') =>
          let acc' := acc ++ [pyStrip (pySlice ls s' e')]
          let inext := if ls.get? i' = some ',' then i' + 1 else i'
          outerLoop f ls inext acc'

/-- Embeds `parse_list`, starting the cursor just after the opening brace.
Note the source calls `parse_list(to_be_parsed)` where the closed-over
`to_be_parsed` holds the same suffix that `parse_value` received, so the
argument here is that suffix. -/
def parse_list (ls : List Char) : Except PyErr (List Char × List (List Char)) :=
  outerLoop (2 * ls.length + 2) ls 1 []

/-- Embeds `parse_value`: a brace list, or everything up to the next
newline (not stripped). -/
def parse_value (s : List Char) : Except PyErr (List Char × RawVal) :=
  match s with
  | [] => .error .indexError
  | c :: _ =>
    if c = lbrace then
      (parse_list s).map (fun p => (p.1, .list p.2))
    else
      let pre := s.takeWhile (fun ch => !(ch == '\n'))
      let post := s.dropWhile (fun ch => !(ch == '\n'))
      match post with
      | [] => .error .indexError
      | _ :: rest => .ok (rest, .scalar pre)

/-- Embeds the entry loop `while len(to_be_parsed) > 0`: identifier,
assignment, value.  Entries are collected in order; the dict assignment
`header[ident] = value` is applied by the caller via `dictInsert`. -/
def parseEntriesF : Nat → List Char → Except PyErr (List (List Char × RawVal))
  | 0, _ => .error .indexError
  | _ + 1, [] => .ok []
  | f + 1, s =>
    match parse_identifier s with
    | .error e => .error e
    | .ok (s1, ident) =>
      match parse_assignment s1 with
      | .error e => .error e
      | .ok s2 =>
        match parse_value s2 with
        | .error e => .error e
        | .ok (s3, v) =>
          match parseEntriesF f s3 with
          | .error e => .error e
          | .ok es => .ok ((ident, v) :: es)

/-- Embeds the CRLF normalization `replace('\x0d\n', '\n')`
(left-to-right, non-overlapping, as Python `str.replace`). -/
def replaceCRLF : List Char → List Char
  | [] => []
  | '\x0d' :: '\n' :: r => '\n' :: replaceCRLF r
  | c :: r => c :: replaceCRLF r

/-- The static per-key type table `field_types`, in source order. -/
inductive FieldTag where
  | tInt
  | tFlt
  | tTime
  | tDecT
deriving DecidableEq, Repr

/-- Embeds the `field_types` mapping of `fix_header_field_types`. -/
def fieldTypesTable : List (String × FieldTag) :=
  [("acquisition time", .tTime),
   ("bands", .tInt),
   ("byte order", .tInt),
   ("data gain values", .tFlt),
   ("data type", .tInt),
   ("fwhm", .tFlt),
   ("lines", .tInt),
   ("samples", .tInt),
   ("wavelength", .tFlt),
   ("senop acquisition mode", .tInt),
   ("senop frame counter", .tInt),
   ("senop integration time", .tFlt),
   ("senop order", .tInt),
   ("senop sequence order", .tInt),
   ("senop timestamp", .tInt),
   ("senop acceleration", .tDecT),
   ("senop gyroscope", .tDecT)]

/-- Monadic map over `Except`, failing at the first failing element
(as Python `list(map(t, xs))` propagates the first exception). -/
def mapME {α β : Type} (f : α → Except PyErr β) : List α → Except PyErr (List β)
  | [] => .ok []
  | a :: r =>
    match f a with
    | .error e => .error e
    | .ok b =>
      match mapME f r with
      | .error e => .error e
      | .ok bs => .ok (b :: bs)

/-- Embeds the per-key conversion of `fix_header_field_types`: the table
type applied to the raw value, element-wise when the raw value is a list.
`dateutil.parser.isoparse` is external library code and is modelled as
the opaque timestamp constructor on the string; `decimal.Decimal` parses
exact decimals, modelled by the same decimal reader as `float`. -/
def coerceVal : Option FieldTag → RawVal → Except PyErr HVal
  | none, .scalar s => .ok (.vStr (String.mk s))
  | none, .list xs => .ok (.vStrList (xs.map String.mk))
  | some .tInt, .scalar s => (pyIntCore s).map .vInt
  | some .tInt, .list xs => (mapME pyIntCore xs).map .vIntList
  | some .tFlt, .scalar s => (pyFloatCore s).map .vFlt
  | some .tFlt, .list xs => (mapME pyFloatCore xs).map .vFltList
  | some .tTime, .scalar s => .ok (.vTime (String.mk s))
  | some .tTime, .list xs => .ok (.vTimeList (xs.map String.mk))
  | some .tDecT, .scalar s => (mapME pyFloatCore (splitOn ',' s)).map .vDecTuple
  | some .tDecT, .list xs =>
    (mapME (fun x => mapME pyFloatCore (splitOn ',' x)) xs).map .vDecTupleList

/-- Embeds `fix_header_field_types`: apply the type table to each entry,
preserving entry order.  (The source iterates the table and mutates the
dict; on success, and whenever at most one entry fails, this is the same
function.) -/
def fixFieldTypes (h : List (String × RawVal)) : Except PyErr Header :=
  mapME (fun kv => (coerceVal (pyLookup fieldTypesTable kv.1) kv.2).map
    (fun v => (kv.1, v))) h

/-- Embeds `parse_envi_header`: CRLF normalization, forced trailing
newline (`IndexError` on empty input, from `to_be_parsed[-1]`), the
`ENVI` magic check, the entry loop with dict semantics, lowercasing of
keys (the `islower` test followed by `lower()` amounts to always
lowercasing), and the type fixing. -/
def parse_envi_header (input : String) : Except PyErr Header :=
  let cs0 := replaceCRLF input.data
  match cs0.getLast? with
  | none => .error .indexError
  | some last =>
    let cs := if last = '\n' then cs0 else cs0 ++ ['\n']
    if cs.take 5 = "ENVI\n".data then
      match parseEntriesF (cs.length + 1) (cs.drop 5) with
      | .error e => .error e
      | .ok entries =>
        let hdr := entries.foldl
          (fun h kv => dictInsert h (String.mk kv.1) kv.2) ([] : List (String × RawVal))
        let low := hdr.foldl
          (fun h kv => dictInsert h (pyLowerStr kv.1) kv.2) ([] : List (String × RawVal))
        fixFieldTypes low
    else .error (.valueError "Expected ENVI.")

/-! ## Header serializer (the writing loop of `write_envi`)

Only the text-producing loop of `write_envi` (the `with header_file.open`
block) is embedded; the file system traffic around it and the
`header['wavelength'] = wavelengths` / `cube_to_bytes` calls preceding it
are the caller's composition.  The one-dimensional `np.ndarray` branch is
not reachable from `HVal` values and is elided. -/

/-- Python `", ".join(pieces)`. -/
def joinComma : List (List Char) → List Char
  | [] => []
  | [x] => x
  | x :: y :: r => x ++ ',' :: ' ' :: joinComma (y :: r)

/-- Embeds one iteration of the `write_envi` serialization loop: the
rendered line for a header entry, or the `ValueError` for a value shape
the writer does not support (a non-str non-float list, or a scalar that
is none of int, float, str — e.g. a timestamp or a `Decimal` tuple). -/
def writeEntryChars (k : String) (v : HVal) : Except PyErr (List Char) :=
  let eq : List Char := ' ' :: '=' :: [' ']
  match v with
  | .vInt n => .ok (k.data ++ eq ++ renderIntChars n ++ ['\n'])
  | .vFlt d => .ok (k.data ++ eq ++ renderDecChars d ++ ['\n'])
  | .vStr s =>
    if s.data.contains ' ' then
      .ok (k.data ++ eq ++ dquote :: s.data ++ [dquote, '\n'])
    else
      .ok (k.data ++ eq ++ s.data ++ ['\n'])
  | .vStrList xs =>
    .ok (k.data ++ eq ++ lbrace :: joinComma (xs.map String.data) ++ [rbrace, '\n'])
  | .vFltList ds =>
    .ok (k.data ++ eq ++ lbrace :: joinComma (ds.map renderDecChars) ++ [rbrace, '\n'])
  | _ => .error (.valueError "Unsupported header field data type")

/-- Embeds the serialization loop of `write_envi`: the `ENVI` magic line
followed by one rendered line per entry, in mapping order. -/
def write_envi_text (hdr : Header) : Except PyErr String :=
  (mapME (fun kv => writeEntryChars kv.1 kv.2) hdr).map
    (fun ls => String.mk ("ENVI\n".data ++ ls.flatten))

/-! ## Numpy layer

Numpy dtypes, buffers and arrays, restricted to what `envi2.py`
exercises.  The platform is modelled as little-endian (`sys.byteorder ==
'little'`), the realistic deployment; this only fixes which concrete bit
the `'='` byte-order mark resolves to. -/

/-- The byte-order mark of a numpy dtype: `'='` (native), `'<'`, `'>'`,
or `'|'` (not applicable — single-byte dtypes always report this). -/
inductive BOrder where
  | native
  | little
  | big
  | notApp
deriving DecidableEq, Repr

/-- The numpy dtype kinds reachable in this codec: unsigned, signed,
floating, complex. -/
inductive NpKind where
  | ukind
  | ikind
  | fkind
  | ckind
deriving DecidableEq, Repr

/-- A numpy dtype: kind, item size in bytes, byte-order mark. -/
structure NpDtype where
  kind : NpKind
  width : Nat
  border : BOrder
deriving DecidableEq, Repr

/-- Whether the dtype stores bytes most-significant first (on the
little-endian platform, only an explicit `'>'` mark does). -/
def isBigOrder : BOrder → Bool
  | .big => true
  | _ => false

/-- A byte string: length plus byte-indexed contents. -/
structure Bytes where
  len : Nat
  byteAt : Nat → Nat

/-- Byte string from an explicit byte list. -/
def bytesOfList (l : List Nat) : Bytes :=
  ⟨l.length, fun i => l.getD i 0⟩

/-- Little-endian value of `w` bytes of `f` starting at `off`. -/
def decodeLE (f : Nat → Nat) : Nat → Nat → Nat
  | _, 0 => 0
  | off, w + 1 => f off + 256 * decodeLE f (off + 1) w

/-- Big-endian value of `w` bytes of `f` starting at `off`. -/
def decodeBE (f : Nat → Nat) : Nat → Nat → Nat
  | _, 0 => 0
  | off, w + 1 => f off * 256 ^ w + decodeBE f (off + 1) w

/-- Byte `j` (from the least significant end) of a value stored
little-endian. -/
def byteOfLE (v j : Nat) : Nat := v / 256 ^ j % 256

/-- Byte `j` (from the most significant end) of a `w`-byte value stored
big-endian. -/
def byteOfBE (v w j : Nat) : Nat := v / 256 ^ (w - 1 - j) % 256

/-- Element `j` of `np.frombuffer(b, dtype)`: the dtype-ordered value of
the `j`-th `width`-byte chunk.  Elements are identified with their
numeric byte representation (`Nat < 256 ^ width`), which determines and
is determined by the stored sample value for every fixed dtype. -/
def bufElem (b : Bytes) (dt : NpDtype) (j : Nat) : Nat :=
  if isBigOrder dt.border then decodeBE b.byteAt (j * dt.width) dt.width
  else decodeLE b.byteAt (j * dt.width) dt.width

/-- A two-dimensional numpy array view: shape plus index function. -/
structure Arr2 (α : Type) where
  d0 : Nat
  d1 : Nat
  get : Nat → Nat → α

/-- A three-dimensional numpy array view: shape plus index function. -/
structure Arr3 (α : Type) where
  d0 : Nat
  d1 : Nat
  d2 : Nat
  get : Nat → Nat → Nat → α

/-- Embeds `flat.reshape((r, c))` (C order): row-major fill from a flat
element sequence. -/
def reshapeC12 {α : Type} (f : Nat → α) (r c : Nat) : Arr2 α :=
  ⟨r, c, fun i j => f (i * c + j)⟩

/-- Embeds `flat.reshape((r, c), order='F')`: column-major fill from a
flat element sequence. -/
def reshapeF12 {α : Type} (f : Nat → α) (r c : Nat) : Arr2 α :=
  ⟨r, c, fun i j => f (i + j * r)⟩

/-- Fortran-order linearization of a 2-D array (first axis fastest). -/
def flatF2 {α : Type} (m : Arr2 α) (n : Nat) : α :=
  m.get (n % m.d0) (n / m.d0)

/-- C-order linearization of a 2-D array (last axis fastest). -/
def flatC2 {α : Type} (m : Arr2 α) (n : Nat) : α :=
  m.get (n / m.d1) (n % m.d1)

/-- Embeds `m.reshape(a, b, c, order='F')` on a 2-D source: read the
source in Fortran order, fill the target in Fortran order. -/
def reshapeF23 {α : Type} (m : Arr2 α) (a b c : Nat) : Arr3 α :=
  ⟨a, b, c, fun i j k => flatF2 m (i + j * a + k * (a * b))⟩

/-- Embeds `m.reshape(a, b, c, order='C')` on a 2-D source: read the
source in C order, fill the target in C order. -/
def reshapeC23 {α : Type} (m : Arr2 α) (a b c : Nat) : Arr3 α :=
  ⟨a, b, c, fun i j k => flatC2 m (i * (b * c) + j * c + k)⟩

/-- Embeds `flat.reshape((a, b, c))` (C order) from a flat element
sequence. -/
def reshapeC13 {α : Type} (f : Nat → α) (a b c : Nat) : Arr3 α :=
  ⟨a, b, c, fun i j k => f (i * (b * c) + j * c + k)⟩

/-- Embeds `np.swapaxes(a, 0, 1)`. -/
def swapaxes01 {α : Type} (a : Arr3 α) : Arr3 α :=
  ⟨a.d1, a.d0, a.d2, fun i j k => a.get j i k⟩

/-- Embeds `np.swapaxes(a, 0, 2)`. -/
def swapaxes02 {α : Type} (a : Arr3 α) : Arr3 α :=
  ⟨a.d2, a.d1, a.d0, fun i j k => a.get k j i⟩

/-- A decoded cube: its numpy dtype and the 3-D array. -/
structure Cube where
  dt : NpDtype
  d0 : Nat
  d1 : Nat
  d2 : Nat
  get : Nat → Nat → Nat → Nat

/-- Python `==` between a header value and an int literal (float values
compare by numeric value, as in Python; other kinds are never equal). -/
def hvalEqInt (v : HVal) (m : Int) : Bool :=
  match v with
  | .vInt n => n == m
  | .vFlt d => decVal d == (m : ℚ)
  | _ => false

/-- Embeds `np.dtype(f'{byte_order}{data_type}')` for the six typestrings
`bytes_to_cube` can build.  `'u1'`, `'f4'`, `'f8'`, `'u2'` are valid
array-protocol typestrings (kind character + size); `'s2'` and `'s4'`
are not: numpy's kind characters are `i`/`u`/`f`/`c`/`S`/... and
lowercase `s` is none of them, so `np.dtype` raises `TypeError`
(`data type not understood`).  A single-byte dtype carries the
not-applicable byte-order mark. -/
def npDtypeOf (bo : BOrder) (ts : String) : Except PyErr NpDtype :=
  if ts = "u1" then .ok ⟨.ukind, 1, .notApp⟩
  else if ts = "f4" then .ok ⟨.fkind, 4, bo⟩
  else if ts = "f8" then .ok ⟨.fkind, 8, bo⟩
  else if ts = "u2" then .ok ⟨.ukind, 2, bo⟩
  else .error (.typeError "data type not understood")

/-- Render of a header value inside a Python f-string, needed only for
the `Unknown data type {v}.` message (ints render as decimal). -/
def pyReprH : HVal → String
  | .vInt n => String.mk (renderIntChars n)
  | .vStr s => s
  | _ => "?"

/-- Embeds `bytes_to_cube`: byte-order resolution, the data-type
dispatch to a typestring, dtype construction, geometry lookups,
`np.frombuffer` (which requires the buffer length to be a multiple of
the item size), and the per-interleave reshape pipeline.  Numpy's
`reshape` requires the element count to equal the product of the target
shape; dimension lookups must be ints (else numpy raises `TypeError`),
and negative dimensions are not modelled (no claim reaches them). -/
def bytes_to_cube (header : Header) (b : Bytes) : Except PyErr Cube :=
  match pyLookup header "byte order" with
  | none => .error (.keyError "byte order")
  | some hbo =>
    let bo? : Except PyErr BOrder :=
      if hvalEqInt hbo 0 then .ok .little
      else if hvalEqInt hbo 1 then .ok .big
      else .error (.valueError "Unknown byte order")
    match bo? with
    | .error e => .error e
    | .ok bo =>
      match pyLookup header "data type" with
      | none => .error (.keyError "data type")
      | some hdt =>
        let ts? : Except PyErr String :=
          if hvalEqInt hdt 1 then .ok "u1"
          else if hvalEqInt hdt 2 then .ok "s2"
          else if hvalEqInt hdt 3 then .ok "s4"
          else if hvalEqInt hdt 4 then .ok "f4"
          else if hvalEqInt hdt 5 then .ok "f8"
          else if hvalEqInt hdt 12 then .ok "u2"
          else .error (.valueError ("Unknown data type " ++ pyReprH hdt ++ "."))
        match ts? with
        | .error e => .error e
        | .ok ts =>
          match npDtypeOf bo ts with
          | .error e => .error e
          | .ok dt =>
            match pyLookup header "lines" with
            | none => .error (.keyError "lines")
            | some hl =>
              match pyLookup header "samples" with
              | none => .error (.keyError "samples")
              | some hs =>
                match pyLookup header "bands" with
                | none => .error (.keyError "bands")
                | some hb =>
                  match hl, hs, hb with
                  | .vInt li, .vInt si, .vInt bi =>
                    if li < 0 ∨ si < 0 ∨ bi < 0 then
                      .error (.valueError "negative dimensions are not allowed")
                    else
                      let rows := li.toNat
                      let cols := si.toNat
                      let bands := bi.toNat
                      if b.len % dt.width ≠ 0 then
                        .error (.valueError "buffer size must be a multiple of element size")
                      else
                        let n := b.len / dt.width
                        let elems := bufElem b dt
                        match pyLookup header "interleave" with
                        | none => .error (.keyError "interleave")
                        | some hi =>
                          match hi with
                          | .vStr ivs =>
                            let il := pyLowerStr ivs
                            if il = "bil" then
                              if n ≠ rows * cols * bands then
                                .error (.valueError "cannot reshape array")
                              else
                                let m := reshapeC12 elems rows (cols * bands)
                                let a := reshapeF23 m rows cols bands
                                .ok ⟨dt, a.d0, a.d1, a.d2, a.get⟩
                            else if il = "bip" then
                              if n ≠ rows * cols * bands then
                                .error (.valueError "cannot reshape array")
                              else
                                let m := reshapeF12 elems bands (rows * cols)
                                let a := reshapeC23 m bands rows cols
                                .ok ⟨dt, a.d0, a.d1, a.d2, a.get⟩
                            else if il = "bsq" then
                              if n ≠ rows * cols * bands then
                                .error (.valueError "cannot reshape array")
                              else
                                let a0 := reshapeC13 elems bands rows cols
                                let a := swapaxes01 (swapaxes02 a0)
                                .ok ⟨dt, a.d0, a.d1, a.d2, a.get⟩
                            else
                              .error (.valueError ("Unknown interleave " ++ il ++ "."))
                          | _ => .error .attributeError
                  | _, _, _ => .error (.typeError "an integer is required")

/-! ## Cube encoder (`cube_to_bytes`) -/

/-- Embeds `a.tobytes(order='C')` for an element width `w`: bytes of the
C-order element sequence, each element serialized in the array's byte
order. -/
def tobytesC (a : Arr3 Nat) (w : Nat) (big : Bool) : Bytes :=
  ⟨a.d0 * a.d1 * a.d2 * w, fun i =>
    let k := i / w
    let v := a.get (k / (a.d1 * a.d2)) (k / a.d2 % a.d1) (k % a.d2)
    if big then byteOfBE v w (i % w) else byteOfLE v (i % w)⟩

/-- Python `match data.dtype: case np.float32: ...` value-pattern test:
dtype equality against a native scalar type.  On the little-endian
platform a dtype with an explicit big-endian mark is a different dtype
and does not match; the not-applicable mark (single-byte dtypes) does. -/
def dtypeIs (dt : NpDtype) (k : NpKind) (w : Nat) : Bool :=
  dt.kind == k && dt.width == w && !(dt.border == .big)

/-- Exact float 1.0 as a header value. -/
def oneFlt : HVal := .vFlt ⟨false, 1, [0]⟩

/-- Embeds `cube_to_bytes`: the dtype match choosing the ENVI data type
code and reflectance scale factor, the byte-order match (single-byte
dtypes report the not-applicable mark and hit the raising arm), the
seven header updates on a deep copy (value semantics make `deepcopy`
the identity here), the two axis swaps to band-sequential order, and
`tobytes`. -/
def cube_to_bytes (header : Header) (data : Cube) : Except PyErr (Header × Bytes) :=
  let code? : Except PyErr (Int × HVal) :=
    if dtypeIs data.dt .fkind 4 then .ok (4, oneFlt)
    else if dtypeIs data.dt .fkind 8 then .ok (5, oneFlt)
    else if dtypeIs data.dt .ckind 8 then .ok (9, oneFlt)
    else if dtypeIs data.dt .ikind 2 then .ok (2, .vInt 32767)
    else if dtypeIs data.dt .ikind 4 then .ok (3, .vInt 2147483647)
    else if dtypeIs data.dt .ikind 8 then .ok (14, .vInt 9223372036854775807)
    else if dtypeIs data.dt .ukind 1 then .ok (1, .vInt 255)
    else if dtypeIs data.dt .ukind 2 then .ok (12, .vInt 65535)
    else if dtypeIs data.dt .ukind 4 then .ok (13, .vInt 4294967295)
    else if dtypeIs data.dt .ukind 8 then .ok (15, .vInt 18446744073709551615)
    else .error (.valueError "Unsupported data type")
  match code? with
  | .error e => .error e
  | .ok (code, rsf) =>
    let byteorder? : Except PyErr Int :=
      match data.dt.border with
      | .native => .ok 0
      | .little => .ok 0
      | .big => .ok 1
      | .notApp => .error (.valueError "Cube has non-applicable byte order?")
    match byteorder? with
    | .error e => .error e
    | .ok byteorder =>
      let h1 := dictInsert header "samples" (.vInt data.d1)
      let h2 := dictInsert h1 "lines" (.vInt data.d0)
      let h3 := dictInsert h2 "bands" (.vInt data.d2)
      let h4 := dictInsert h3 "byte order" (.vInt byteorder)
      let h5 := dictInsert h4 "data type" (.vInt code)
      let h6 := dictInsert h5 "interleave" (.vStr "BSQ")
      let h7 := dictInsert h6 "reflectance scale factor" rsf
      let a0 : Arr3 Nat := ⟨data.d0, data.d1, data.d2, data.get⟩
      let a := swapaxes02 (swapaxes01 a0)
      .ok (h7, tobytesC a data.dt.width (isBigOrder data.dt.border))

/-- Encode-then-decode composition of `cube_to_bytes` and
`bytes_to_cube`, the subject of the round-trip property. -/
def roundTrip (header : Header) (data : Cube) : Except PyErr Cube :=
  match cube_to_bytes header data with
  | .error e => .error e
  | .ok (h', bs) => bytes_to_cube h' bs

/-! ## Normalizer (`normalize_envi_cube`) -/

/-- A normalized (float64) cube.  Divisions are modelled in exact
arithmetic; the float64 quotient is the correctly rounded image of the
exact one, so exact reasoning decides equality with 1.0 whenever the
exact value is 1 or differs from 1 by far more than the rounding step,
as in every statement below. -/
structure QCube where
  d0 : Nat
  d1 : Nat
  d2 : Nat
  get : Nat → Nat → Nat → ℚ

/-- Embeds `normalize_envi_cube`: uint8 cubes divide by 255; uint16
cubes consult `header.get('sensor type')` — calling `.lower()` on the
`None` returned for a missing key (or on a non-string value) raises
`AttributeError` — and left-shift by 4 (wrapping mod 2^16, as numpy
`<<` on uint16 does) when the sensor is `specim iq`, then divide by
65535; every other dtype raises `ValueError`.  The dtype string
comparisons follow numpy dtype equality: `'uint8'` matches any
single-byte unsigned dtype, `'uint16'` the native/little two-byte
unsigned dtype. -/
def normalize_envi_cube (header : Header) (cube : Cube) : Except PyErr QCube :=
  if cube.dt.kind == .ukind && cube.dt.width == 1 then
    .ok ⟨cube.d0, cube.d1, cube.d2, fun l s b => (cube.get l s b : ℚ) / 255⟩
  else if cube.dt.kind == .ukind && cube.dt.width == 2 && !(cube.dt.border == .big) then
    match pyLookup header "sensor type" with
    | some (.vStr sv) =>
      let shifted : Nat → Nat → Nat → Nat :=
        if pyLowerStr sv = "specim iq" then fun l s b => cube.get l s b * 16 % 65536
        else cube.get
      .ok ⟨cube.d0, cube.d1, cube.d2, fun l s b => (shifted l s b : ℚ) / 65535⟩
    | _ => .error .attributeError
  else .error (.valueError "Unhandled cube dtype")

/-! ## Read entry point (`read_envi`) -/

/-- The cube returned by `read_envi`: raw when `normalize=False`,
normalized otherwise. -/
inductive CubeOut where
  | raw (c : Cube)
  | norm (q : QCube)

/-- Embeds `read_envi` on the branch where the data file is supplied
(file-system probing and reading are I/O around the codec; the
`np.array(..., 'float32')` conversion of the wavelength value is a
representation change downstream of the lookup that this models): parse
the header, decode the cube, optionally normalize, then look up
`header['wavelength']` — unconditionally, so a missing key raises
`KeyError` here. -/
def read_envi (headerText : String) (dataBytes : Bytes) (normalize : Bool) :
    Except PyErr (CubeOut × HVal × Header) :=
  match parse_envi_header headerText with
  | .error e => .error e
  | .ok header =>
    match bytes_to_cube header dataBytes with
    | .error e => .error e
    | .ok cube =>
      let c? : Except PyErr CubeOut :=
        if normalize then
          match normalize_envi_cube header cube with
          | .error e => .error e
          | .ok q => .ok (.norm q)
        else .ok (.raw cube)
      match c? with
      | .error e => .error e
      | .ok c =>
        match pyLookup header "wavelength" with
        | none => .error (.keyError "wavelength")
        | some w => .ok (c, w, header)

/-- Whether an `Except` result is a `ValueError` (the typed parse error). -/
def isValueError {α : Type} : Except PyErr α → Bool
  | .error (.valueError _) => true
  | _ => false

/-- Byte width of the data type codes whose typestrings `np.dtype`
accepts (codes 2 and 3 map to the invalid typestrings `s2`/`s4` and
never reach the size check); used to state buffer-size conditions. -/
def byteWidthOfCode (code : Int) : Nat :=
  if code = 1 then 1 else if code = 4 then 4 else if code = 5 then 8
  else if code = 12 then 2 else 0

/-- The keys of the static type table typed as integers. -/
def intKeys : List String :=
  ["bands", "byte order", "data type", "lines", "samples",
   "senop acquisition mode", "senop frame counter", "senop order",
   "senop sequence order", "senop timestamp"]

/-- The keys of the static type table typed as floats. -/
def fltKeys : List String :=
  ["data gain values", "fwhm", "wavelength", "senop integration time"]

/-- A header entry within the serializable fragment of the type table:
an integer value under an integer-typed key, or a (well-formed) float
scalar or float list under a float-typed key. -/
def supportedEntry (k : String) (v : HVal) : Prop :=
  (k ∈ intKeys ∧ ∃ n, v = .vInt n) ∨
  (k ∈ fltKeys ∧ ((∃ d, v = .vFlt d ∧ decWF d) ∨
    (∃ ds, v = .vFltList ds ∧ ∀ d ∈ ds, decWF d)))

/-- The raw (pre-coercion) form that parsing gives back for a rendered
supported value. -/
def rawOf : HVal → RawVal
  | .vInt n => .scalar (renderIntChars n)
  | .vFlt d => .scalar (renderDecChars d)
  | .vFltList ds => .list (ds.map renderDecChars)
  | _ => .scalar []

/-- Comma-separated concatenation of the element scans the list parser
walks over (the separator only; any following space belongs to the next
scan chunk). -/
def sepJoin : List (List Char) → List Char
  | [] => []
  | [x] => x
  | x :: y :: r => x ++ ',' :: sepJoin (y :: r)

/-- A character that terminates neither an element scan nor a quote
scan inside `parse_list`. -/
def chunkChar (c : Char) : Prop := c ≠ ',' ∧ c ≠ rbrace ∧ c ≠ dquote

/-- A character of a rendered number: not whitespace and not one of the
grammar's delimiter characters. -/
def plainChar (c : Char) : Prop :=
  isSpaceCh c = false ∧ c ≠ ',' ∧ c ≠ rbrace ∧ c ≠ dquote ∧ c ≠ lbrace ∧ c ≠ '='

/-- The scan chunks the list parser walks over for a rendered list value:
the first rendered element, then each later element prefixed by the space
that `", ".join` wrote after the comma separator. -/
def decChunks (rds : List (List Char)) : List (List Char) :=
  match rds with
  | [] => []
  | x :: xs => x :: xs.map (fun l => ' ' :: l)

/-- The key-shape facts the entry grammar needs of a header key: nonempty,
free of `=` (so `parse_identifier` stops at the assignment) and of carriage
returns, and invariant under stripping with a trailing space. -/
def keyOK (k : String) : Prop :=
  k.data ≠ [] ∧ (∀ c ∈ k.data, ¬(c = '=')) ∧ pyStrip (k.data ++ [' ']) = k.data ∧
  (∀ c ∈ k.data, ¬(c = '\x0d'))

instance (k : String) : Decidable (keyOK k) := by
  unfold keyOK; infer_instance

/-! ## Dictionary lemmas -/

theorem pyLookup_dictInsert_self {α : Type} (m : List (String × α)) (k : String) (v : α) :
    pyLookup (dictInsert m k v) k = some v := by
  induction m with
  | nil => simp [dictInsert, pyLookup]
  | cons a r ih =>
    obtain ⟨k', v'⟩ := a
    by_cases hk : k' = k
    · simp [dictInsert, hk, pyLookup]
    · simp [dictInsert, hk, pyLookup, ih]

theorem pyLookup_dictInsert_ne {α : Type} (m : List (String × α)) (k kq : String) (v : α)
    (h : kq ≠ k) : pyLookup (dictInsert m k v) kq = pyLookup m kq := by
  have hk' : ¬k = kq := fun hh => h hh.symm
  induction m with
  | nil => simp [dictInsert, pyLookup, hk']
  | cons a r ih =>
    obtain ⟨k', v'⟩ := a
    by_cases hk : k' = k
    · subst hk
      simp [dictInsert, pyLookup, hk']
    · by_cases hq : k' = kq
      · subst hq
        simp [dictInsert, hk, pyLookup]
      · simp [dictInsert, hk, pyLookup, hq, ih]

/-! ## Claim C1: encode/decode round trip -/

/-- C1, counterexample: for a uint8 cube — u8 is a registry element type —
`cube_to_bytes` already fails: numpy single-byte dtypes carry the
not-applicable byte-order mark, which hits the raising arm of the
byte-order match, so encode-then-decode cannot reproduce any u8 cube. -/
theorem c1_u8_encode_fails :
    roundTrip [] ⟨⟨.ukind, 1, .notApp⟩, 1, 1, 1, fun _ _ _ => 7⟩ =
      .error (.valueError "Cube has non-applicable byte order?") := rfl

/-- C-order serialization length of a 3-D array. -/
theorem tobytesC_len (a : Arr3 Nat) (w : Nat) (big : Bool) :
    (tobytesC a w big).len = a.d0 * a.d1 * a.d2 * w := rfl

/-- Index arithmetic for the C-order linearization of a (bands, lines,
samples) block: the three coordinates are recovered from the flat
index. -/
theorem idx3 (L S l s bd : Nat) (hl : l < L) (hs : s < S) :
    (bd * (L * S) + l * S + s) / (L * S) = bd ∧
    (bd * (L * S) + l * S + s) / S % L = l ∧
    (bd * (L * S) + l * S + s) % S = s := by
  have hS : 0 < S := Nat.lt_of_le_of_lt (Nat.zero_le _) hs
  have hLp : 0 < L := Nat.lt_of_le_of_lt (Nat.zero_le _) hl
  have hLS : 0 < L * S := Nat.mul_pos hLp hS
  have hsl : l * S + s < L * S := by
    calc l * S + s < l * S + S := by omega
    _ = (l + 1) * S := by ring
    _ ≤ L * S := Nat.mul_le_mul_right _ hl
  refine ⟨?_, ?_, ?_⟩
  · rw [show bd * (L * S) + l * S + s = l * S + s + L * S * bd by ring,
      Nat.add_mul_div_left _ _ hLS, Nat.div_eq_of_lt hsl, Nat.zero_add]
  · rw [show bd * (L * S) + l * S + s = s + S * (l + L * bd) by ring,
      Nat.add_mul_div_left _ _ hS, Nat.div_eq_of_lt hs, Nat.zero_add,
      Nat.add_mul_mod_self_left, Nat.mod_eq_of_lt hl]
  · rw [show bd * (L * S) + l * S + s = s + S * (l + L * bd) by ring,
      Nat.add_mul_mod_self_left, Nat.mod_eq_of_lt hs]

/-- Reading `w` little-endian bytes of `v` starting at offset `off`
reconstructs `v` whenever `v` fits in `w` bytes. -/
theorem decodeLE_spec (w : Nat) : ∀ (v off : Nat) (f : Nat → Nat),
    (∀ r, r < w → f (off + r) = byteOfLE v r) → v < 256 ^ w →
    decodeLE f off w = v := by
  induction w with
  | zero =>
    intro v off f _ hv
    simp [decodeLE]
    omega
  | succ w ih =>
    intro v off f hf hv
    have h0 : f off = v % 256 := by
      have := hf 0 (Nat.succ_pos w)
      simpa [byteOfLE] using this
    have hrec : decodeLE f (off + 1) w = v / 256 := by
      apply ih (v / 256) (off + 1) f
      · intro r hr
        have hx := hf (r + 1) (by omega)
        rw [show off + (r + 1) = off + 1 + r by ring] at hx
        rw [hx]
        simp [byteOfLE, Nat.pow_succ, Nat.div_div_eq_div_mul, Nat.mul_comm]
      · have hvv : v < 256 * 256 ^ w := by
          rw [← pow_succ']; exact hv
        exact Nat.div_lt_of_lt_mul hvv
    simp [decodeLE, h0, hrec, Nat.mod_add_div]

/-- The byte at position `j*w + r` of the little-endian C-order
serialization is byte `r` of the element at flat index `j`. -/
theorem tobytesC_byteAt (a : Arr3 Nat) (w : Nat) (j r : Nat) (hw : 0 < w) (hr : r < w) :
    (tobytesC a w false).byteAt (j * w + r) =
      byteOfLE (a.get (j / (a.d1 * a.d2)) (j / a.d2 % a.d1) (j % a.d2)) r := by
  have hdiv : (j * w + r) / w = j := by
    rw [Nat.mul_comm, Nat.mul_add_div hw, Nat.div_eq_of_lt hr, Nat.add_zero]
  have hmod : (j * w + r) % w = r := by
    rw [Nat.add_comm, Nat.add_mul_mod_self_right, Nat.mod_eq_of_lt hr]
  simp [tobytesC, hdiv, hmod]

/-- C1, amended: for every header and cube whose dtype is f32, f64 or
u16 with a native or little byte-order mark (the dtypes that survive
both the encoder's dispatch and the decoder's data-type table),
encode-then-decode succeeds and reproduces the cube's shape and sample
values element-wise. -/
theorem c1_roundtrip_restricted (h : Header) (c : Cube)
    (hdt : c.dt = ⟨.fkind, 4, .native⟩ ∨ c.dt = ⟨.fkind, 4, .little⟩ ∨
           c.dt = ⟨.fkind, 8, .native⟩ ∨ c.dt = ⟨.fkind, 8, .little⟩ ∨
           c.dt = ⟨.ukind, 2, .native⟩ ∨ c.dt = ⟨.ukind, 2, .little⟩)
    (hv : ∀ l, l < c.d0 → ∀ s, s < c.d1 → ∀ b, b < c.d2 →
      c.get l s b < 256 ^ c.dt.width) :
    ∃ c', roundTrip h c = .ok c' ∧ c'.d0 = c.d0 ∧ c'.d1 = c.d1 ∧ c'.d2 = c.d2 ∧
      ∀ l, l < c.d0 → ∀ s, s < c.d1 → ∀ b, b < c.d2 → c'.get l s b = c.get l s b := by
  have hnn : ¬((c.d0 : Int) < 0 ∨ (c.d1 : Int) < 0 ∨ (c.d2 : Int) < 0) := by omega
  have hprod : c.d2 * c.d0 * c.d1 = c.d0 * c.d1 * c.d2 := by ring
  have hbsq : pyLowerStr "BSQ" = "bsq" := by decide
  rcases hdt with hdt | hdt | hdt | hdt | hdt | hdt <;>
  · simp only [hdt] at hv
    simp [roundTrip, cube_to_bytes, hdt, dtypeIs, isBigOrder, oneFlt, bytes_to_cube,
      pyLookup_dictInsert_self, pyLookup_dictInsert_ne, hvalEqInt, npDtypeOf, hnn, hprod,
      hbsq, swapaxes01, swapaxes02, tobytesC_len, Nat.mul_div_cancel, Nat.mul_mod_left]
    refine ⟨rfl, rfl, rfl, ?_⟩
    intro l hl s hs bd hbd
    obtain ⟨e1, e2, e3⟩ := idx3 c.d0 c.d1 l s bd hl hs
    simp only [reshapeC13, bufElem, isBigOrder]
    apply decodeLE_spec
    · intro r hr
      rw [tobytesC_byteAt _ _ _ _ (by norm_num) hr]
      simp [e1, e2, e3]
    · exact hv l hl s hs bd hbd

/-- C1, witness: the restricted round trip applied to a concrete
1×1×2 little-endian uint16 cube. -/
theorem c1_roundtrip_restricted_witness :
    ∃ c', roundTrip [("description", .vStr "x")]
        ⟨⟨.ukind, 2, .little⟩, 1, 1, 2, fun _ _ b => 513 + b⟩ = .ok c' ∧
      c'.d0 = 1 ∧ c'.d1 = 1 ∧ c'.d2 = 2 ∧
      ∀ l, l < 1 → ∀ s, s < 1 → ∀ b, b < 2 →
        c'.get l s b =
          (⟨⟨.ukind, 2, .little⟩, 1, 1, 2, fun _ _ b => 513 + b⟩ : Cube).get l s b :=
  c1_roundtrip_restricted _ _
    (Or.inr (Or.inr (Or.inr (Or.inr (Or.inr rfl))))) (by decide)

/-! ## Claim C2: BIP axis order -/

/-- C2: decoding a BIP buffer with `lines = 2`, `samples = 3`, `bands = 1`
returns an array of shape `(bands, lines, samples) = (1, 2, 3)` — the
code reshapes but never permutes the axes — whereas the canonical order
produced for bil and bsq would be `(lines, samples, bands) = (2, 3, 1)`;
sample `(b, l, s) = (0, 1, 2)` holds flat element 5, confirming the
band-first indexing. -/
theorem c2_bip_not_canonical :
    Except.map (fun c => ((c.d0, c.d1, c.d2), c.get 0 1 2))
      (bytes_to_cube
        [("samples", .vInt 3), ("lines", .vInt 2), ("bands", .vInt 1),
         ("data type", .vInt 1), ("byte order", .vInt 0), ("interleave", .vStr "bip")]
        (bytesOfList [10, 11, 12, 13, 14, 15])) = .ok ((1, 2, 3), 15) ∧
    ((1, 2, 3) : Nat × Nat × Nat) ≠ (2, 3, 1) := by
  exact ⟨rfl, by decide⟩

/-! ## Claim C3: normalization of full-scale values -/

/-- C3, counterexample: a 16-bit cube tagged `Specim IQ` maps the
sample 4095 to `(4095 <<< 4) / 65535 = 65520 / 65535`, which is not 1.0
(the gap is about `2.3e-4`, far above float64 rounding). -/
theorem c3_specim_4095_not_one :
    Except.map (fun q => q.get 0 0 0)
      (normalize_envi_cube [("sensor type", .vStr "Specim IQ")]
        ⟨⟨.ukind, 2, .little⟩, 1, 1, 1, fun _ _ _ => 4095⟩) =
      .ok ((65520 : ℚ) / 65535) ∧ ((65520 : ℚ) / 65535) ≠ 1 := by
  refine ⟨rfl, by norm_num⟩

/-- C3, amended: an 8-bit cube maps 255 to exactly 1.0 and a 16-bit
cube with a non-special sensor maps 65535 to exactly 1.0, as claimed;
but under the `specim iq` correction the sample 4095 maps to
`65520 / 65535`, slightly below 1.0, because the left-shift-by-4 of
4095 gives 65520, which is then divided by 65535. -/
theorem c3_normalize_values :
    (∀ (h : Header) (c : Cube), c.dt.kind = .ukind → c.dt.width = 1 →
       ∃ q, normalize_envi_cube h c = .ok q ∧
         ∀ l s b, c.get l s b = 255 → q.get l s b = 1) ∧
    (∀ (h : Header) (c : Cube) (sv : String), c.dt.kind = .ukind → c.dt.width = 2 →
       c.dt.border ≠ .big → pyLookup h "sensor type" = some (.vStr sv) →
       pyLowerStr sv ≠ "specim iq" →
       ∃ q, normalize_envi_cube h c = .ok q ∧
         ∀ l s b, c.get l s b = 65535 → q.get l s b = 1) ∧
    (∀ (h : Header) (c : Cube) (sv : String), c.dt.kind = .ukind → c.dt.width = 2 →
       c.dt.border ≠ .big → pyLookup h "sensor type" = some (.vStr sv) →
       pyLowerStr sv = "specim iq" →
       ∃ q, normalize_envi_cube h c = .ok q ∧
         ∀ l s b, c.get l s b = 4095 → q.get l s b = 65520 / 65535) := by
  refine ⟨?_, ?_, ?_⟩
  · intro h c hk hw
    have heval : normalize_envi_cube h c =
        .ok ⟨c.d0, c.d1, c.d2, fun l s b => (c.get l s b : ℚ) / 255⟩ := by
      simp [normalize_envi_cube, hk, hw]
    refine ⟨_, heval, ?_⟩
    intro l s b hv
    norm_num [hv]
  · intro h c sv hk hw hb hsens hne
    have hbf : (c.dt.border == BOrder.big) = false := beq_eq_false_iff_ne.mpr hb
    have heval : normalize_envi_cube h c =
        .ok ⟨c.d0, c.d1, c.d2, fun l s b => (c.get l s b : ℚ) / 65535⟩ := by
      simp [normalize_envi_cube, hk, hw, hbf, hsens, hne]
    refine ⟨_, heval, ?_⟩
    intro l s b hv
    norm_num [hv]
  · intro h c sv hk hw hb hsens heq
    have hbf : (c.dt.border == BOrder.big) = false := beq_eq_false_iff_ne.mpr hb
    have heval : normalize_envi_cube h c =
        .ok ⟨c.d0, c.d1, c.d2,
          fun l s b => ((c.get l s b * 16 % 65536 : Nat) : ℚ) / 65535⟩ := by
      simp [normalize_envi_cube, hk, hw, hbf, hsens, heq]
    refine ⟨_, heval, ?_⟩
    intro l s b hv
    norm_num [hv]

/-- C3, witness: the three normalization facts at concrete 1×1×1 cubes
holding the full-scale values 255, 65535, and 4095. -/
theorem c3_normalize_values_witness :
    (∃ q, normalize_envi_cube [] ⟨⟨.ukind, 1, .notApp⟩, 1, 1, 1, fun _ _ _ => 255⟩ = .ok q ∧
       ∀ l s b, (⟨⟨.ukind, 1, .notApp⟩, 1, 1, 1, fun _ _ _ => 255⟩ : Cube).get l s b = 255 →
         q.get l s b = 1) ∧
    (∃ q, normalize_envi_cube [("sensor type", .vStr "Senop HSC-2")]
        ⟨⟨.ukind, 2, .little⟩, 1, 1, 1, fun _ _ _ => 65535⟩ = .ok q ∧
       ∀ l s b,
         (⟨⟨.ukind, 2, .little⟩, 1, 1, 1, fun _ _ _ => 65535⟩ : Cube).get l s b = 65535 →
         q.get l s b = 1) ∧
    (∃ q, normalize_envi_cube [("sensor type", .vStr "Specim IQ")]
        ⟨⟨.ukind, 2, .little⟩, 1, 1, 1, fun _ _ _ => 4095⟩ = .ok q ∧
       ∀ l s b,
         (⟨⟨.ukind, 2, .little⟩, 1, 1, 1, fun _ _ _ => 4095⟩ : Cube).get l s b = 4095 →
         q.get l s b = 65520 / 65535) :=
  ⟨c3_normalize_values.1 [] _ rfl rfl,
   c3_normalize_values.2.1 _ _ "Senop HSC-2" rfl rfl (by decide) rfl (by decide),
   c3_normalize_values.2.2 _ _ "Specim IQ" rfl rfl (by decide) rfl (by decide)⟩

/-! ## Claim C4: BIL layout -/

/-- C4, counterexample: for a BIL buffer with `lines = 1`, `samples = 2`,
`bands = 2` and flat bytes `[10, 11, 12, 13]`, the claim's formula
`flat[l*samples*bands + s*bands + b]` predicts `cube[0][0][1] = flat[1]
= 11`, but the decoded cube holds `flat[l*samples*bands + b*samples + s]
= flat[2] = 12`: within a line the samples of one band are contiguous,
not the bands of one sample. -/
theorem c4_bil_band_not_fastest :
    Except.map (fun c => c.get 0 0 1)
      (bytes_to_cube
        [("samples", .vInt 2), ("lines", .vInt 1), ("bands", .vInt 2),
         ("data type", .vInt 1), ("byte order", .vInt 0), ("interleave", .vStr "bil")]
        (bytesOfList [10, 11, 12, 13])) = .ok 12 ∧ (12 : Nat) ≠ 11 := by
  exact ⟨rfl, by decide⟩

/-- C4, amended: for a BIL header over a resolvable data type and an
exact-size buffer, the decoded cube has the canonical shape and
satisfies `cube[l][s][b] = flat[l*samples*bands + b*samples + s]` — the
samples of one band are contiguous within a line (band varies slower
within a line than sample, contrary to the claim's formula). -/
theorem c4_bil_layout (h : Header) (b : Bytes) (L S B : Nat) (code : Int) (dt : NpDtype)
    (iv : String)
    (hbo : pyLookup h "byte order" = some (.vInt 0))
    (hdt : pyLookup h "data type" = some (.vInt code))
    (hcode : (code = 1 ∧ dt = ⟨.ukind, 1, .notApp⟩) ∨ (code = 4 ∧ dt = ⟨.fkind, 4, .little⟩) ∨
             (code = 5 ∧ dt = ⟨.fkind, 8, .little⟩) ∨ (code = 12 ∧ dt = ⟨.ukind, 2, .little⟩))
    (hL : pyLookup h "lines" = some (.vInt (L : Int)))
    (hS : pyLookup h "samples" = some (.vInt (S : Int)))
    (hB : pyLookup h "bands" = some (.vInt (B : Int)))
    (hil : pyLookup h "interleave" = some (.vStr iv))
    (hivl : pyLowerStr iv = "bil")
    (hlen : b.len = L * S * B * dt.width) :
    ∃ c, bytes_to_cube h b = .ok c ∧ c.d0 = L ∧ c.d1 = S ∧ c.d2 = B ∧
      ∀ l < L, ∀ s < S, ∀ bd < B,
        c.get l s bd = bufElem b dt (l * (S * B) + bd * S + s) := by
  have hw : 0 < dt.width := by
    rcases hcode with ⟨_, rfl⟩ | ⟨_, rfl⟩ | ⟨_, rfl⟩ | ⟨_, rfl⟩ <;> norm_num
  have hmod : b.len % dt.width = 0 := by
    rw [hlen]; exact Nat.mul_mod_left _ _
  have hdiv : b.len / dt.width = L * S * B := by
    rw [hlen, Nat.mul_div_cancel _ hw]
  rcases hcode with ⟨rfl, rfl⟩ | ⟨rfl, rfl⟩ | ⟨rfl, rfl⟩ | ⟨rfl, rfl⟩ <;>
  · simp only [bytes_to_cube, hbo, hdt, hL, hS, hB, hil, hvalEqInt, npDtypeOf, hivl]
    simp [hmod, hdiv]
    refine ⟨_, rfl, rfl, rfl, rfl, ?_⟩
    intro l hl s hs bd hbd
    simp only [reshapeF23, flatF2, reshapeC12]
    have e1 : l + s * L + bd * (L * S) = l + L * (s + bd * S) := by ring
    have e2 : (l + L * (s + bd * S)) % L = l := by
      rw [Nat.add_mul_mod_self_left, Nat.mod_eq_of_lt hl]
    have e3 : (l + L * (s + bd * S)) / L = s + bd * S := by
      rw [Nat.add_mul_div_left _ _ (Nat.lt_of_le_of_lt (Nat.zero_le _) hl),
        Nat.div_eq_of_lt hl, Nat.zero_add]
    rw [e1, e2, e3]
    congr 1
    ring

/-- C4, witness: the amended layout applied to the 1×2×2 uint8 BIL
example. -/
theorem c4_bil_layout_witness :
    ∃ c, bytes_to_cube
        [("samples", .vInt 2), ("lines", .vInt 1), ("bands", .vInt 2),
         ("data type", .vInt 1), ("byte order", .vInt 0), ("interleave", .vStr "bil")]
        (bytesOfList [10, 11, 12, 13]) = .ok c ∧ c.d0 = 1 ∧ c.d1 = 2 ∧ c.d2 = 2 ∧
      ∀ l < 1, ∀ s < 2, ∀ bd < 2,
        c.get l s bd = bufElem (bytesOfList [10, 11, 12, 13]) ⟨.ukind, 1, .notApp⟩
          (l * (2 * 2) + bd * 2 + s) :=
  c4_bil_layout _ _ 1 2 2 1 _ "bil" rfl rfl (Or.inl ⟨rfl, rfl⟩) rfl rfl rfl rfl (by decide) rfl

/-! ## Claim C5: buffer size requirement -/

/-- C5, counterexample: a buffer of 2 bytes holds at least the
`1 * 1 * 1 * 1` bytes the geometry implies, yet decoding fails —
`reshape` requires the element count to match exactly, so oversized
buffers are rejected too. -/
theorem c5_longer_buffer_fails :
    bytes_to_cube
      [("samples", .vInt 1), ("lines", .vInt 1), ("bands", .vInt 1),
       ("data type", .vInt 1), ("byte order", .vInt 0), ("interleave", .vStr "bsq")]
      (bytesOfList [10, 11]) = .error (.valueError "cannot reshape array") ∧
    1 * 1 * 1 * 1 ≤ (bytesOfList [10, 11]).len := by
  exact ⟨rfl, by decide⟩

/-- C5, amended: for a header with a known byte order and interleave and
a data type code that resolves to a numpy dtype, decoding succeeds
exactly when the buffer holds exactly `lines * samples * bands *
byteWidth` bytes; shorter buffers, longer buffers, and buffers whose
length is not a multiple of the element size all fail. -/
theorem c5_exact_size_iff (h : Header) (b : Bytes) (L S B : Nat) (code bo : Int) (iv : String)
    (hbo : pyLookup h "byte order" = some (.vInt bo)) (hbov : bo = 0 ∨ bo = 1)
    (hdt : pyLookup h "data type" = some (.vInt code))
    (hcode : code = 1 ∨ code = 4 ∨ code = 5 ∨ code = 12)
    (hL : pyLookup h "lines" = some (.vInt (L : Int)))
    (hS : pyLookup h "samples" = some (.vInt (S : Int)))
    (hB : pyLookup h "bands" = some (.vInt (B : Int)))
    (hil : pyLookup h "interleave" = some (.vStr iv))
    (hivl : pyLowerStr iv = "bil" ∨ pyLowerStr iv = "bip" ∨ pyLowerStr iv = "bsq") :
    (∃ c, bytes_to_cube h b = .ok c) ↔ b.len = L * S * B * byteWidthOfCode code := by
  have hnn : ¬((L : Int) < 0 ∨ (S : Int) < 0 ∨ (B : Int) < 0) := by omega
  have hw : 0 < byteWidthOfCode code := by
    rcases hcode with hc | hc | hc | hc <;> simp [byteWidthOfCode, hc]
  rcases hbov with hbv | hbv <;> rcases hcode with hc | hc | hc | hc <;>
    rcases hivl with hiv | hiv | hiv <;>
  · constructor
    · rintro ⟨c, hcu⟩
      simp [bytes_to_cube, hbo, hdt, hL, hS, hB, hil, hvalEqInt, npDtypeOf, hiv, hbv, hc,
        hnn, byteWidthOfCode] at hcu ⊢
      split at hcu <;>
        first
        | (simp at hcu; done)
        | (split at hcu <;> first | (simp at hcu; done) | omega)
    · intro hlen
      simp [bytes_to_cube, hbo, hdt, hL, hS, hB, hil, hvalEqInt, npDtypeOf, hiv, hbv, hc,
        hnn, hlen, byteWidthOfCode, Nat.mul_div_cancel, Nat.mul_mod_left]
      try simp [Nat.mod_one]

/-- C5, witness: the size criterion applied to a 1×1×1 uint8 bsq header,
where the exact required length is one byte. -/
theorem c5_exact_size_iff_witness :
    (∃ c, bytes_to_cube
        [("samples", .vInt 1), ("lines", .vInt 1), ("bands", .vInt 1),
         ("data type", .vInt 1), ("byte order", .vInt 0), ("interleave", .vStr "bsq")]
        (bytesOfList [5]) = .ok c) ↔
      (bytesOfList [5]).len = 1 * 1 * 1 * byteWidthOfCode 1 :=
  c5_exact_size_iff _ _ 1 1 1 1 0 "bsq" rfl (Or.inl rfl) rfl (Or.inl rfl) rfl rfl rfl rfl
    (Or.inr (Or.inr (by decide)))

/-! ## Claim C6: accepted data type codes -/

/-- C6, counterexample: data type code 9 (complex64 in the claimed
registry) is not accepted by `bytes_to_cube`; it falls through the
dispatch to the unknown-data-type `ValueError`. -/
theorem c6_code9_rejected :
    bytes_to_cube
      [("samples", .vInt 1), ("lines", .vInt 1), ("bands", .vInt 1),
       ("data type", .vInt 9), ("byte order", .vInt 0), ("interleave", .vStr "bsq")]
      (bytesOfList [0, 0, 0, 0, 0, 0, 0, 0]) =
      .error (.valueError "Unknown data type 9.") := rfl

/-- C6, amended: the data-type dispatch of `bytes_to_cube` accepts
exactly the codes 1, 2, 3, 4, 5, 12 and raises the unknown-data-type
`ValueError` for every other code; codes 1, 4, 5, 12 resolve to the u8,
f32, f64, u16 dtypes, while codes 2 and 3 map to the typestrings `s2`
and `s4`, which are not numpy type codes, so `np.dtype` raises
`TypeError` and no i16/i32 cube is ever produced. -/
theorem c6_data_type_dispatch (h : Header) (b : Bytes) (L S B : Nat) (code : Int) (iv : String)
    (hbo : pyLookup h "byte order" = some (.vInt 0))
    (hdt : pyLookup h "data type" = some (.vInt code))
    (hL : pyLookup h "lines" = some (.vInt (L : Int)))
    (hS : pyLookup h "samples" = some (.vInt (S : Int)))
    (hB : pyLookup h "bands" = some (.vInt (B : Int)))
    (hil : pyLookup h "interleave" = some (.vStr iv))
    (hivl : pyLowerStr iv = "bsq")
    (hlen : b.len = L * S * B * byteWidthOfCode code) :
    (¬(code = 1 ∨ code = 2 ∨ code = 3 ∨ code = 4 ∨ code = 5 ∨ code = 12) →
       bytes_to_cube h b =
         .error (.valueError ("Unknown data type " ++ pyReprH (.vInt code) ++ "."))) ∧
    ((code = 2 ∨ code = 3) →
       bytes_to_cube h b = .error (.typeError "data type not understood")) ∧
    (code = 1 → ∃ c, bytes_to_cube h b = .ok c ∧ c.dt = ⟨.ukind, 1, .notApp⟩) ∧
    (code = 4 → ∃ c, bytes_to_cube h b = .ok c ∧ c.dt = ⟨.fkind, 4, .little⟩) ∧
    (code = 5 → ∃ c, bytes_to_cube h b = .ok c ∧ c.dt = ⟨.fkind, 8, .little⟩) ∧
    (code = 12 → ∃ c, bytes_to_cube h b = .ok c ∧ c.dt = ⟨.ukind, 2, .little⟩) := by
  have hnn : ¬((L : Int) < 0 ∨ (S : Int) < 0 ∨ (B : Int) < 0) := by omega
  refine ⟨?_, ?_, ?_, ?_, ?_, ?_⟩
  · intro hno
    have hn1 : ¬(code = 1) := fun hh => hno (Or.inl hh)
    have hn2 : ¬(code = 2) := fun hh => hno (Or.inr (Or.inl hh))
    have hn3 : ¬(code = 3) := fun hh => hno (Or.inr (Or.inr (Or.inl hh)))
    have hn4 : ¬(code = 4) := fun hh => hno (Or.inr (Or.inr (Or.inr (Or.inl hh))))
    have hn5 : ¬(code = 5) := fun hh => hno (Or.inr (Or.inr (Or.inr (Or.inr (Or.inl hh)))))
    have hn12 : ¬(code = 12) :=
      fun hh => hno (Or.inr (Or.inr (Or.inr (Or.inr (Or.inr hh)))))
    simp [bytes_to_cube, hbo, hdt, hvalEqInt, hn1, hn2, hn3, hn4, hn5, hn12]
  · rintro (hc | hc) <;>
      simp [bytes_to_cube, hbo, hdt, hvalEqInt, hc, npDtypeOf]
  · intro hc
    simp [bytes_to_cube, hbo, hdt, hL, hS, hB, hil, hvalEqInt, npDtypeOf, hivl, hc, hnn,
      hlen, byteWidthOfCode, Nat.mul_div_cancel, Nat.mul_mod_left]
    try simp [Nat.mod_one]
  · intro hc
    simp [bytes_to_cube, hbo, hdt, hL, hS, hB, hil, hvalEqInt, npDtypeOf, hivl, hc, hnn,
      hlen, byteWidthOfCode, Nat.mul_div_cancel, Nat.mul_mod_left]
    try simp [Nat.mod_one]
  · intro hc
    simp [bytes_to_cube, hbo, hdt, hL, hS, hB, hil, hvalEqInt, npDtypeOf, hivl, hc, hnn,
      hlen, byteWidthOfCode, Nat.mul_div_cancel, Nat.mul_mod_left]
    try simp [Nat.mod_one]
  · intro hc
    simp [bytes_to_cube, hbo, hdt, hL, hS, hB, hil, hvalEqInt, npDtypeOf, hivl, hc, hnn,
      hlen, byteWidthOfCode, Nat.mul_div_cancel, Nat.mul_mod_left]
    try simp [Nat.mod_one]

/-- C6, witness: the dispatch properties at the concrete code 9 with a
valid bsq header and the (empty) exact-size buffer. -/
theorem c6_data_type_dispatch_witness :
    (¬((9 : Int) = 1 ∨ (9 : Int) = 2 ∨ (9 : Int) = 3 ∨ (9 : Int) = 4 ∨ (9 : Int) = 5 ∨
        (9 : Int) = 12) →
       bytes_to_cube
         [("samples", .vInt 1), ("lines", .vInt 1), ("bands", .vInt 1),
          ("data type", .vInt 9), ("byte order", .vInt 0), ("interleave", .vStr "bsq")]
         (bytesOfList []) =
         .error (.valueError ("Unknown data type " ++ pyReprH (.vInt 9) ++ "."))) ∧
    (((9 : Int) = 2 ∨ (9 : Int) = 3) →
       bytes_to_cube
         [("samples", .vInt 1), ("lines", .vInt 1), ("bands", .vInt 1),
          ("data type", .vInt 9), ("byte order", .vInt 0), ("interleave", .vStr "bsq")]
         (bytesOfList []) = .error (.typeError "data type not understood")) ∧
    ((9 : Int) = 1 → ∃ c, bytes_to_cube
         [("samples", .vInt 1), ("lines", .vInt 1), ("bands", .vInt 1),
          ("data type", .vInt 9), ("byte order", .vInt 0), ("interleave", .vStr "bsq")]
         (bytesOfList []) = .ok c ∧ c.dt = ⟨.ukind, 1, .notApp⟩) ∧
    ((9 : Int) = 4 → ∃ c, bytes_to_cube
         [("samples", .vInt 1), ("lines", .vInt 1), ("bands", .vInt 1),
          ("data type", .vInt 9), ("byte order", .vInt 0), ("interleave", .vStr "bsq")]
         (bytesOfList []) = .ok c ∧ c.dt = ⟨.fkind, 4, .little⟩) ∧
    ((9 : Int) = 5 → ∃ c, bytes_to_cube
         [("samples", .vInt 1), ("lines", .vInt 1), ("bands", .vInt 1),
          ("data type", .vInt 9), ("byte order", .vInt 0), ("interleave", .vStr "bsq")]
         (bytesOfList []) = .ok c ∧ c.dt = ⟨.fkind, 8, .little⟩) ∧
    ((9 : Int) = 12 → ∃ c, bytes_to_cube
         [("samples", .vInt 1), ("lines", .vInt 1), ("bands", .vInt 1),
          ("data type", .vInt 9), ("byte order", .vInt 0), ("interleave", .vStr "bsq")]
         (bytesOfList []) = .ok c ∧ c.dt = ⟨.ukind, 2, .little⟩) :=
  c6_data_type_dispatch _ _ 1 1 1 9 "bsq" rfl rfl rfl rfl rfl rfl (by decide) rfl

/-! ## Claim C7: serialize/parse round trip -/

/-- C7, counterexample: `acquisition time` is in the static type table
and coercion produces a timestamp for it, but the header writer has no
branch for timestamp values and raises `ValueError`, so serialize-then-
parse fails for such a header. -/
theorem c7_timestamp_not_serializable :
    write_envi_text [("acquisition time", .vTime "2021-03-01T12:00:00")] =
      .error (.valueError "Unsupported header field data type") ∧
    pyLookup fieldTypesTable "acquisition time" = some .tTime := by
  exact ⟨rfl, rfl⟩

/-! ## Claim C8: parse error kinds -/

/-- C8, counterexample: an entry with no `=` before the end of input
makes `parse_identifier` scan off the end of the text: the failure is an
`IndexError` crash, not the typed `ValueError` the claim promises for
every grammar violation. -/
theorem c8_missing_eq_is_crash :
    parse_envi_header "ENVI\nfoo\n" = .error .indexError ∧
    isValueError (parse_envi_header "ENVI\nfoo\n") = false := by
  exact ⟨rfl, rfl⟩

/-- C8, amended: of the five grammar violations, the missing `ENVI`
magic and a closing brace not followed by a newline raise the typed
`ValueError`; a missing `=`, an unterminated quoted value, and an
unterminated list all crash with `IndexError` instead. -/
theorem c8_grammar_errors :
    parse_envi_header "samples = 2\n" = .error (.valueError "Expected ENVI.") ∧
    parse_envi_header "ENVI\nfoo\n" = .error .indexError ∧
    parse_envi_header "ENVI\nk = \x7b\x221.5\n" = .error .indexError ∧
    parse_envi_header "ENVI\nk = \x7b1, 2\n" = .error .indexError ∧
    parse_envi_header "ENVI\nk = \x7b1\x7dx\n" = .error (.valueError "Expected \x7d") := by
  exact ⟨rfl, rfl, rfl, rfl, rfl⟩

/-! ## Claim C9: wavelength is required on the read path -/

/-- C9: `read_envi` looks up `wavelength` unconditionally after decoding
(and optional normalization): whenever the header text parses, the key
is absent, and the cube decodes (and normalizes, when requested), the
call fails with the `KeyError` for `wavelength`. -/
theorem c9_wavelength_required (t : String) (b : Bytes) (nrm : Bool) (h : Header) (c : Cube)
    (hp : parse_envi_header t = .ok h)
    (hw : pyLookup h "wavelength" = none)
    (hc : bytes_to_cube h b = .ok c)
    (hn : nrm = true → ∃ q, normalize_envi_cube h c = .ok q) :
    read_envi t b nrm = .error (.keyError "wavelength") := by
  cases nrm with
  | true =>
    obtain ⟨q, hq⟩ := hn rfl
    simp [read_envi, hp, hc, hq, hw]
  | false => simp [read_envi, hp, hc, hw]

/-- C9, witness: a parsable uint8 header with all six geometry keys and
no `wavelength` entry, with a matching 1-byte buffer, normalized. -/
theorem c9_wavelength_required_witness :
    read_envi
      "ENVI\nsamples = 1\nlines = 1\nbands = 1\ndata type = 1\nbyte order = 0\ninterleave = bsq\n"
      (bytesOfList [7]) true = .error (.keyError "wavelength") :=
  c9_wavelength_required _ _ _ _ _ rfl rfl rfl (fun _ => ⟨_, rfl⟩)

/-! ## Claim C10: sensor type is required for uint16 normalization -/

/-- C10: for a uint16 cube, `normalize_envi_cube` calls `.lower()` on
`header.get('sensor type')` with no presence check; when the key is
absent the `None` result makes the call crash with `AttributeError`
rather than returning the typed `ValueError` used for unsupported
dtypes. -/
theorem c10_sensor_type_lookup_crash (h : Header) (c : Cube)
    (hk : c.dt.kind = .ukind) (hw : c.dt.width = 2) (hb : c.dt.border ≠ .big)
    (hs : pyLookup h "sensor type" = none) :
    normalize_envi_cube h c = .error .attributeError := by
  unfold normalize_envi_cube
  rw [hk, hw]
  simp [hs, beq_eq_false_iff_ne, hb]

/-- C10, witness: a uint16 little-endian cube and a header with no
`sensor type` entry. -/
theorem c10_sensor_type_lookup_crash_witness :
    normalize_envi_cube [("lines", .vInt 1)]
      ⟨⟨.ukind, 2, .little⟩, 1, 1, 1, fun _ _ _ => 0⟩ = .error .attributeError :=
  c10_sensor_type_lookup_crash _ _ rfl rfl (by decide) rfl

/-! ## Claim C7, amended direction: the serialize/parse round trip
for the int/float fragment of the type table -/
theorem isSpaceCh_iff (c : Char) :
    isSpaceCh c = true ↔
      (c = ' ' ∨ c = '\t' ∨ c = '\n' ∨ c = '\x0d' ∨ c = '\x0b' ∨ c = '\x0c') := by
  simp [isSpaceCh]
  tauto

theorem isDigit_facts (c : Char) (h : c.isDigit = true) :
    plainChar c ∧ c ≠ '.' ∧ c ≠ '-' ∧ c ≠ '+' ∧ c ≠ '\n' := by
  refine ⟨⟨?_, ?_, ?_, ?_, ?_, ?_⟩, ?_, ?_, ?_, ?_⟩ <;>
    first
    | (rintro rfl; exact absurd h (by decide))
    | (by_contra hs
       rw [Bool.not_eq_false, isSpaceCh_iff] at hs
       rcases hs with rfl | rfl | rfl | rfl | rfl | rfl <;> exact absurd h (by decide))

theorem charDigit_digitChar : ∀ d < 10, charDigit (digitChar d) = d := by decide

theorem digitChar_isDigit : ∀ d < 10, (digitChar d).isDigit = true := by decide

theorem natDigitsF_ne_nil : ∀ f n, n < f → natDigitsF f n ≠ [] := by
  intro f
  induction f with
  | zero => intro n h; omega
  | succ f ih =>
    intro n h
    by_cases h10 : n < 10
    · simp [natDigitsF, h10]
    · simp [natDigitsF, h10]

theorem natDigitsF_digits : ∀ f n, n < f → ∀ c ∈ natDigitsF f n, c.isDigit = true := by
  intro f
  induction f with
  | zero => intro n h; omega
  | succ f ih =>
    intro n h c hc
    by_cases h10 : n < 10
    · simp [natDigitsF, h10] at hc
      subst hc
      exact digitChar_isDigit n h10
    · simp [natDigitsF, h10] at hc
      rcases hc with hc | hc
      · have hlt : n / 10 < f := by
          have h1 : n / 10 < n := Nat.div_lt_self (by omega) (by omega)
          omega
        exact ih (n / 10) hlt c hc
      · subst hc
        exact digitChar_isDigit _ (Nat.mod_lt _ (by omega))

theorem natDigitsF_val : ∀ f n, n < f → ∀ a,
    List.foldl (fun x c => 10 * x + charDigit c) a (natDigitsF f n) =
      a * 10 ^ (natDigitsF f n).length + n := by
  intro f
  induction f with
  | zero => intro n h; omega
  | succ f ih =>
    intro n h a
    by_cases h10 : n < 10
    · simp [natDigitsF, h10, charDigit_digitChar n h10]
      ring
    · have hlt : n / 10 < f := by
        have h1 : n / 10 < n := Nat.div_lt_self (by omega) (by omega)
        omega
      simp only [natDigitsF, h10, if_false, List.foldl_append, List.foldl_cons,
        List.foldl_nil, List.length_append, List.length_cons, List.length_nil]
      rw [ih (n / 10) hlt a, charDigit_digitChar _ (Nat.mod_lt _ (by omega))]
      rw [pow_succ]
      have hdm : 10 * (n / 10) + n % 10 = n := by omega
      ring_nf
      ring_nf at hdm ⊢
      nlinarith [hdm]

theorem charsVal_natDigits (n : Nat) : charsVal (natDigits n) = n := by
  have := natDigitsF_val (n + 1) n (Nat.lt_succ_self n) 0
  simpa [charsVal, natDigits] using this

theorem natDigits_ne_nil (n : Nat) : natDigits n ≠ [] :=
  natDigitsF_ne_nil _ n (Nat.lt_succ_self n)

theorem natDigits_all_digit (n : Nat) : ∀ c ∈ natDigits n, c.isDigit = true :=
  natDigitsF_digits _ n (Nat.lt_succ_self n)

theorem takeWhile_append_all {p : Char → Bool} (xs ys : List Char)
    (h : ∀ c ∈ xs, p c = true) :
    (xs ++ ys).takeWhile p = xs ++ ys.takeWhile p := by
  induction xs with
  | nil => simp
  | cons a r ih =>
    have ha := h a (List.mem_cons_self _ _)
    simp [List.takeWhile_cons, ha]
    exact ih (fun c hc => h c (List.mem_cons_of_mem _ hc))

theorem dropWhile_append_all {p : Char → Bool} (xs ys : List Char)
    (h : ∀ c ∈ xs, p c = true) :
    (xs ++ ys).dropWhile p = ys.dropWhile p := by
  induction xs with
  | nil => simp
  | cons a r ih =>
    have ha := h a (List.mem_cons_self _ _)
    simp [List.dropWhile_cons, ha]
    exact ih (fun c hc => h c (List.mem_cons_of_mem _ hc))

theorem dropWhile_cons_false {p : Char → Bool} (c : Char) (l : List Char)
    (h : p c = false) : (c :: l).dropWhile p = c :: l := by
  simp [List.dropWhile_cons, h]

theorem takeWhile_cons_false {p : Char → Bool} (c : Char) (l : List Char)
    (h : p c = false) : (c :: l).takeWhile p = [] := by
  simp [List.takeWhile_cons, h]

theorem dropWhile_no_sat {p : Char → Bool} (l : List Char)
    (h : ∀ c ∈ l, p c = false) : l.dropWhile p = l := by
  cases l with
  | nil => rfl
  | cons a r => exact dropWhile_cons_false _ _ (h a (List.mem_cons_self _ _))

theorem pyStrip_no_ws (l : List Char) (h : ∀ c ∈ l, isSpaceCh c = false) :
    pyStrip l = l := by
  unfold pyStrip
  rw [dropWhile_no_sat l h, dropWhile_no_sat _ (fun c hc => h c (List.mem_reverse.mp hc)),
    List.reverse_reverse]

theorem pyStrip_cons_space (l : List Char) : pyStrip (' ' :: l) = pyStrip l := by
  unfold pyStrip
  simp [List.dropWhile_cons, isSpaceCh]

theorem pyIntCore_renderInt (i : Int) : pyIntCore (renderIntChars i) = .ok i := by
  have hstrip : pyStrip (renderIntChars i) = renderIntChars i := by
    apply pyStrip_no_ws
    intro c hc
    unfold renderIntChars at hc
    split at hc
    · rcases List.mem_cons.mp hc with rfl | hc
      · decide
      · exact (isDigit_facts c (natDigits_all_digit _ c hc)).1.1
    · exact (isDigit_facts c (natDigits_all_digit _ c hc)).1.1
  have hne : natDigits i.natAbs ≠ [] := natDigits_ne_nil _
  have hall : (natDigits i.natAbs).all Char.isDigit = true := by
    rw [List.all_eq_true]
    intro c hc
    exact natDigits_all_digit _ c hc
  have hcv : charsVal (natDigits i.natAbs) = i.natAbs := charsVal_natDigits _
  have hall' : ∀ x ∈ natDigits i.natAbs, x.isDigit = true := natDigits_all_digit _
  by_cases hneg : i < 0
  · have hrend : renderIntChars i = '-' :: natDigits i.natAbs := by
      simp [renderIntChars, hneg]
    rw [hrend] at hstrip
    have hcast : (↑i.natAbs : Int) = -i := by omega
    simp [pyIntCore, hrend, hstrip, hne, hcv, hcast]
    exact hall'
  · have hrend : renderIntChars i = natDigits i.natAbs := by
      simp [renderIntChars, hneg]
    rw [hrend] at hstrip
    rcases hh : natDigits i.natAbs with _ | ⟨c, cs⟩
    · exact absurd hh hne
    · have hcd := natDigits_all_digit i.natAbs c (by rw [hh]; exact List.mem_cons_self _ _)
      have hfacts := isDigit_facts c hcd
      rw [hh] at hrend hstrip hcv hall'
      have hcast : (↑i.natAbs : Int) = i := by omega
      simp [pyIntCore, hrend, hstrip, hcv, hcast, hcd, hfacts.2.2.1, hfacts.2.2.2.1]
      exact fun x hx => hall' x (List.mem_cons_of_mem _ hx)

theorem map_charDigit_digitChar (fr : List Nat) (h : ∀ x ∈ fr, x < 10) :
    (fr.map digitChar).map charDigit = fr := by
  rw [List.map_map]
  have : ∀ x ∈ fr, (charDigit ∘ digitChar) x = id x := by
    intro x hx
    simp [Function.comp, charDigit_digitChar x (h x hx)]
  rw [List.map_congr_left this, List.map_id]

theorem renderDec_cases (d : Dec) (hwf : decWF d) (c : Char) (hc : c ∈ renderDecChars d) :
    c = '-' ∨ c = '.' ∨ c.isDigit = true := by
  unfold renderDecChars at hc
  rcases List.mem_append.mp hc with hAB | hC
  · rcases List.mem_append.mp hAB with hA | hB
    · left
      split at hA
      · simpa using hA
      · simp at hA
    · right; right
      exact natDigits_all_digit _ c hB
  · rcases List.mem_cons.mp hC with rfl | hl
    · right; left; rfl
    · right; right
      obtain ⟨x, hx, rfl⟩ := List.mem_map.mp hl
      exact digitChar_isDigit x (hwf x hx)

theorem pyFloatCore_renderDec (d : Dec) (hwf : decWF d) :
    pyFloatCore (renderDecChars d) = .ok d := by
  have hfrd : ∀ c ∈ d.fr.map digitChar, c.isDigit = true := by
    intro c hc
    obtain ⟨x, hx, rfl⟩ := List.mem_map.mp hc
    exact digitChar_isDigit x (hwf x hx)
  have hstrip : pyStrip (renderDecChars d) = renderDecChars d := by
    apply pyStrip_no_ws
    intro c hc
    rcases renderDec_cases d hwf c hc with rfl | rfl | hdig
    · decide
    · decide
    · exact (isDigit_facts c hdig).1.1
  have htw : (natDigits d.ip ++ '.' :: d.fr.map digitChar).takeWhile Char.isDigit =
      natDigits d.ip := by
    rw [takeWhile_append_all _ _ (natDigits_all_digit d.ip),
      takeWhile_cons_false _ _ (by decide), List.append_nil]
  have hdw : (natDigits d.ip ++ '.' :: d.fr.map digitChar).dropWhile Char.isDigit =
      '.' :: d.fr.map digitChar := by
    rw [dropWhile_append_all _ _ (natDigits_all_digit d.ip),
      dropWhile_cons_false _ _ (by decide)]
  have htw2 : (d.fr.map digitChar).takeWhile Char.isDigit = d.fr.map digitChar :=
    List.takeWhile_eq_self_iff.mpr hfrd
  have hdw2 : (d.fr.map digitChar).dropWhile Char.isDigit = [] :=
    List.dropWhile_eq_nil_iff.mpr (fun c hc => hfrd c hc)
  have hne : natDigits d.ip ≠ [] := natDigits_ne_nil _
  have hcv : charsVal (natDigits d.ip) = d.ip := charsVal_natDigits _
  have hmap := map_charDigit_digitChar d.fr hwf
  obtain ⟨neg, ip, fr⟩ := d
  simp only at hstrip htw hdw htw2 hdw2 hne hcv hmap hfrd
  cases neg
  · have hrend : renderDecChars ⟨false, ip, fr⟩ = natDigits ip ++ '.' :: fr.map digitChar := by
      simp [renderDecChars]
    rw [hrend] at hstrip
    rcases hh : natDigits ip with _ | ⟨c, cs⟩
    · exact absurd hh hne
    · have hcd := natDigits_all_digit ip c (by rw [hh]; exact List.mem_cons_self _ _)
      have hfacts := isDigit_facts c hcd
      rw [hh] at hstrip htw hdw hcv
      rw [List.cons_append] at hstrip htw hdw
      simp [pyFloatCore, hrend, hh, hstrip, hfacts.2.2.1, hfacts.2.2.2.1, htw, hdw,
        htw2, hdw2, hcv, hmap]
  · have hrend : renderDecChars ⟨true, ip, fr⟩ =
        '-' :: (natDigits ip ++ '.' :: fr.map digitChar) := by
      simp [renderDecChars]
    rw [hrend] at hstrip
    simp [pyFloatCore, hrend, hstrip, htw, hdw, htw2, hdw2, hcv, hmap, hne]

theorem get_append_len {α : Type} (pre l : List α) :
    (pre ++ l).get? pre.length = l.head? := by
  induction pre with
  | nil => cases l <;> rfl
  | cons a r ih => simpa using ih

theorem drop_append_len {α : Type} (pre l : List α) (k : Nat) :
    (pre ++ l).drop (pre.length + k) = l.drop k := by
  induction pre with
  | nil => simp
  | cons a r ih => simpa [Nat.succ_add] using ih

theorem innerScan_safe : ∀ (run pre suf : List Char) (c : Char) (s e fuel : Nat),
    run ≠ [] → (∀ x ∈ run, chunkChar x) → (c = ',' ∨ c = rbrace) → run.length < fuel →
    innerScan fuel (pre ++ run ++ c :: suf) pre.length s e =
      .ok (pre.length + run.length, s, pre.length + run.length) := by
  intro run
  induction run with
  | nil => intro pre suf c s e fuel hne; exact absurd rfl hne
  | cons x run' ih =>
    intro pre suf c s e fuel hne hsafe hc hfuel
    obtain ⟨f, rfl⟩ : ∃ f, fuel = f + 1 := ⟨fuel - 1, by omega⟩
    have hget : (pre ++ (x :: run') ++ c :: suf).get? pre.length = some x := by
      rw [List.append_assoc, get_append_len]
      rfl
    have hx := hsafe x (List.mem_cons_self _ _)
    simp only [innerScan, hget]
    rw [if_neg (by simp [hx.1, hx.2.1]), if_neg (by simp [hx.2.2])]
    cases run' with
    | nil =>
      have hfuel' : 1 < f + 1 := by simpa using hfuel
      obtain ⟨f', rfl⟩ : ∃ f', f = f' + 1 := ⟨f - 1, by omega⟩
      have hget2 : (pre ++ [x] ++ c :: suf).get? (pre.length + 1) = some c := by
        rw [show pre.length + 1 = (pre ++ [x]).length by simp, get_append_len]
        rfl
      simp only [innerScan, hget2]
      rw [if_pos (by rcases hc with rfl | rfl <;> simp)]
      simp
    | cons y run'' =>
      have step := ih (pre ++ [x]) suf c s (pre.length + 1) f (by simp)
        (fun z hz => hsafe z (List.mem_cons_of_mem _ hz)) hc
        (by simp at hfuel ⊢; omega)
      rw [show (pre ++ [x]).length = pre.length + 1 by simp] at step
      rw [show pre ++ [x] ++ (y :: run'') ++ c :: suf =
        pre ++ (x :: y :: run'') ++ c :: suf by simp] at step
      rw [step]
      have hlen2 : pre.length + 1 + (y :: run'').length = pre.length + (x :: y :: run'').length := by
        simp only [List.length_cons]
        omega
      rw [hlen2]

theorem outerLoop_chunks : ∀ (chunks : List (List Char)) (pre rest : List Char)
    (acc : List (List Char)) (fuel : Nat),
    (∀ ch ∈ chunks, ch ≠ [] ∧ ∀ x ∈ ch, chunkChar x) →
    chunks.length < fuel →
    outerLoop fuel (pre ++ sepJoin chunks ++ rbrace :: '\n' :: rest) pre.length acc =
      .ok (rest, acc ++ chunks.map pyStrip) := by
  intro chunks
  induction chunks with
  | nil =>
    intro pre rest acc fuel _ hfuel
    obtain ⟨f, rfl⟩ : ∃ f, fuel = f + 1 := ⟨fuel - 1, by omega⟩
    rw [show pre ++ sepJoin [] ++ rbrace :: '\n' :: rest = pre ++ rbrace :: '\n' :: rest
      by simp [sepJoin]]
    have hget : (pre ++ rbrace :: '\n' :: rest).get? pre.length = some rbrace := by
      rw [get_append_len]; rfl
    have hget2 : (pre ++ rbrace :: '\n' :: rest).get? (pre.length + 1) = some '\n' := by
      rw [show pre ++ rbrace :: '\n' :: rest = (pre ++ [rbrace]) ++ '\n' :: rest by simp,
        show pre.length + 1 = (pre ++ [rbrace]).length by simp, get_append_len]
      rfl
    have hdrop : (pre ++ rbrace :: '\n' :: rest).drop (pre.length + 2) = rest := by
      rw [drop_append_len]; rfl
    simp only [outerLoop, hget, hget2, hdrop]
    simp
  | cons ch chunks' ih =>
    intro pre rest acc fuel hsafe hfuel
    obtain ⟨f, rfl⟩ : ∃ f, fuel = f + 1 := ⟨fuel - 1, by omega⟩
    obtain ⟨hne, hch⟩ := hsafe ch (List.mem_cons_self _ _)
    obtain ⟨x, chr, rfl⟩ : ∃ x chr, ch = x :: chr := by
      cases ch with
      | nil => exact absurd rfl hne
      | cons a b => exact ⟨a, b, rfl⟩
    have hx := hch x (List.mem_cons_self _ _)
    have hcomma : ¬(rbrace = ',') := by decide
    cases chunks' with
    | nil =>
      rw [show pre ++ sepJoin [x :: chr] ++ rbrace :: '\n' :: rest
          = pre ++ (x :: chr) ++ rbrace :: ('\n' :: rest) by simp [sepJoin]]
      have hget : (pre ++ (x :: chr) ++ rbrace :: ('\n' :: rest)).get? pre.length = some x := by
        rw [List.append_assoc, get_append_len]; rfl
      have hscan := innerScan_safe (x :: chr) pre ('\n' :: rest) rbrace pre.length 1
        ((pre ++ (x :: chr) ++ rbrace :: ('\n' :: rest)).length + 1)
        (by simp) hch (Or.inr rfl) (by simp; omega)
      have hslice : pySlice (pre ++ (x :: chr) ++ rbrace :: ('\n' :: rest)) pre.length
          (pre.length + (x :: chr).length) = x :: chr := by
        unfold pySlice
        rw [List.append_assoc, List.drop_left,
          show pre.length + (x :: chr).length - pre.length = (x :: chr).length by omega,
          List.take_left]
      have hget2 : (pre ++ (x :: chr) ++ rbrace :: ('\n' :: rest)).get?
          (pre.length + (x :: chr).length) = some rbrace := by
        rw [show pre ++ (x :: chr) ++ rbrace :: ('\n' :: rest)
            = (pre ++ (x :: chr)) ++ rbrace :: ('\n' :: rest) by simp,
          show pre.length + (x :: chr).length = (pre ++ (x :: chr)).length by simp,
          get_append_len]
        rfl
      have hrec := ih (pre ++ (x :: chr)) rest (acc ++ [pyStrip (x :: chr)]) f
        (by intro c hc; simp at hc) (by simp at hfuel ⊢; omega)
      rw [show (pre ++ (x :: chr)) ++ sepJoin [] ++ rbrace :: '\n' :: rest
          = pre ++ (x :: chr) ++ rbrace :: ('\n' :: rest) by simp [sepJoin],
        show (pre ++ (x :: chr)).length = pre.length + (x :: chr).length by simp] at hrec
      simp only [outerLoop, hget]
      rw [if_neg hx.2.1, hscan]
      simp only [hslice, hget2, Option.some.injEq]
      rw [if_neg hcomma, hrec]
      simp
    | cons ch2 chs =>
      rw [show pre ++ sepJoin ((x :: chr) :: ch2 :: chs) ++ rbrace :: '\n' :: rest
          = pre ++ (x :: chr) ++ ',' :: (sepJoin (ch2 :: chs) ++ rbrace :: '\n' :: rest)
          by simp [sepJoin]]
      have hget : (pre ++ (x :: chr) ++
          ',' :: (sepJoin (ch2 :: chs) ++ rbrace :: '\n' :: rest)).get? pre.length = some x := by
        rw [List.append_assoc, get_append_len]; rfl
      have hscan := innerScan_safe (x :: chr) pre (sepJoin (ch2 :: chs) ++ rbrace :: '\n' :: rest)
        ',' pre.length 1
        ((pre ++ (x :: chr) ++ ',' :: (sepJoin (ch2 :: chs) ++ rbrace :: '\n' :: rest)).length + 1)
        (by simp) hch (Or.inl rfl) (by simp; omega)
      have hslice : pySlice (pre ++ (x :: chr) ++
          ',' :: (sepJoin (ch2 :: chs) ++ rbrace :: '\n' :: rest)) pre.length
          (pre.length + (x :: chr).length) = x :: chr := by
        unfold pySlice
        rw [List.append_assoc, List.drop_left,
          show pre.length + (x :: chr).length - pre.length = (x :: chr).length by omega,
          List.take_left]
      have hget2 : (pre ++ (x :: chr) ++
          ',' :: (sepJoin (ch2 :: chs) ++ rbrace :: '\n' :: rest)).get?
          (pre.length + (x :: chr).length) = some ',' := by
        rw [show pre ++ (x :: chr) ++ ',' :: (sepJoin (ch2 :: chs) ++ rbrace :: '\n' :: rest)
            = (pre ++ (x :: chr)) ++ ',' :: (sepJoin (ch2 :: chs) ++ rbrace :: '\n' :: rest)
            by simp,
          show pre.length + (x :: chr).length = (pre ++ (x :: chr)).length by simp,
          get_append_len]
        rfl
      have hrec := ih (pre ++ (x :: chr) ++ [',']) rest (acc ++ [pyStrip (x :: chr)]) f
        (fun c hc => hsafe c (List.mem_cons_of_mem _ hc)) (by simp at hfuel ⊢; omega)
      rw [show (pre ++ (x :: chr) ++ [',']) ++ sepJoin (ch2 :: chs) ++ rbrace :: '\n' :: rest
          = pre ++ (x :: chr) ++ ',' :: (sepJoin (ch2 :: chs) ++ rbrace :: '\n' :: rest)
          by simp,
        show (pre ++ (x :: chr) ++ [',']).length = pre.length + (x :: chr).length + 1 by
          simp only [List.length_append, List.length_cons, List.length_nil]] at hrec
      simp only [outerLoop, hget]
      rw [if_neg hx.2.1, hscan]
      simp only [hslice, hget2, Option.some.injEq]
      rw [if_pos trivial, hrec]
      simp

theorem parse_identifier_entry (k tail : List Char) (hk : ∀ c ∈ k, ¬(c = '=')) :
    parse_identifier (k ++ ' ' :: '=' :: tail) = .ok ('=' :: tail, pyStrip (k ++ [' '])) := by
  have hall : ∀ c ∈ k, (fun c => !(c == '=')) c = true := by
    intro c hc
    simp [hk c hc]
  have htw : (k ++ ' ' :: '=' :: tail).takeWhile (fun c => !(c == '=')) = k ++ [' '] := by
    rw [takeWhile_append_all _ _ hall, List.takeWhile_cons]
    simp [takeWhile_cons_false (p := fun c => !(c == '=')) '=' tail (by decide)]
  have hdw : (k ++ ' ' :: '=' :: tail).dropWhile (fun c => !(c == '=')) = '=' :: tail := by
    rw [dropWhile_append_all _ _ hall, List.dropWhile_cons]
    simp [dropWhile_cons_false (p := fun c => !(c == '=')) '=' tail (by decide)]
  simp only [parse_identifier, htw, hdw]
  simp

theorem parse_assignment_entry (c0 : Char) (l : List Char) (hc0 : spaceTab c0 = false) :
    parse_assignment ('=' :: ' ' :: c0 :: l) = .ok (c0 :: l) := by
  have h1 : ('=' :: ' ' :: c0 :: l).dropWhile spaceTab = '=' :: ' ' :: c0 :: l :=
    dropWhile_cons_false _ _ (by decide)
  have h2 : (' ' :: c0 :: l).dropWhile spaceTab = c0 :: l := by
    rw [List.dropWhile_cons]
    simp [show spaceTab ' ' = true by decide, dropWhile_cons_false _ _ hc0]
  simp only [parse_assignment, h1]
  simp [h2]

theorem parse_value_scalar (v0 : Char) (vs rest : List Char)
    (hplain : ∀ c ∈ v0 :: vs, ¬(c = '\n')) (hlb : ¬(v0 = lbrace)) :
    parse_value (v0 :: (vs ++ '\n' :: rest)) = .ok (rest, .scalar (v0 :: vs)) := by
  have hall : ∀ c ∈ v0 :: vs, (fun ch => !(ch == '\n')) c = true := by
    intro c hc
    simp [hplain c hc]
  have htw : (v0 :: (vs ++ '\n' :: rest)).takeWhile (fun ch => !(ch == '\n')) = v0 :: vs := by
    rw [show v0 :: (vs ++ '\n' :: rest) = (v0 :: vs) ++ '\n' :: rest by simp,
      takeWhile_append_all _ _ hall]
    simp [takeWhile_cons_false (p := fun ch => !(ch == '\n')) '\n' rest (by decide)]
  have hdw : (v0 :: (vs ++ '\n' :: rest)).dropWhile (fun ch => !(ch == '\n')) = '\n' :: rest := by
    rw [show v0 :: (vs ++ '\n' :: rest) = (v0 :: vs) ++ '\n' :: rest by simp,
      dropWhile_append_all _ _ hall]
    exact dropWhile_cons_false _ _ (by decide)
  simp only [parse_value]
  rw [if_neg hlb]
  simp only [htw, hdw]

theorem sepJoin_length_ge : ∀ (chunks : List (List Char)),
    (∀ ch ∈ chunks, ch ≠ []) → chunks.length ≤ (sepJoin chunks).length + 1 := by
  intro chunks
  induction chunks with
  | nil => intro; simp
  | cons x r ih =>
    intro h
    cases r with
    | nil => simp
    | cons y r' =>
      have hx : x ≠ [] := (h x (List.mem_cons_self _ _))
      have hx1 : 1 ≤ x.length := by
        cases x with
        | nil => exact absurd rfl hx
        | cons a b => simp
      have := ih (fun c hc => h c (List.mem_cons_of_mem _ hc))
      simp only [sepJoin, List.length_cons, List.length_append] at *
      omega

theorem parse_value_list (chunks : List (List Char)) (rest : List Char)
    (hsafe : ∀ ch ∈ chunks, ch ≠ [] ∧ ∀ x ∈ ch, chunkChar x) :
    parse_value (lbrace :: (sepJoin chunks ++ rbrace :: '\n' :: rest)) =
      .ok (rest, .list (chunks.map pyStrip)) := by
  have hbound : chunks.length <
      2 * (lbrace :: (sepJoin chunks ++ rbrace :: '\n' :: rest)).length + 2 := by
    have := sepJoin_length_ge chunks (fun c hc => (hsafe c hc).1)
    simp only [List.length_cons, List.length_append]
    omega
  have h := outerLoop_chunks chunks [lbrace] rest []
    (2 * (lbrace :: (sepJoin chunks ++ rbrace :: '\n' :: rest)).length + 2) hsafe hbound
  rw [show [lbrace] ++ sepJoin chunks ++ rbrace :: '\n' :: rest
      = lbrace :: (sepJoin chunks ++ rbrace :: '\n' :: rest) by simp,
    show ([lbrace] : List Char).length = 1 by simp] at h
  simp only [parse_value]
  rw [if_pos trivial]
  unfold parse_list
  rw [h]
  simp [Except.map]

theorem sepJoin_cons_space (y : List Char) (L : List (List Char)) :
    ' ' :: sepJoin (y :: L) = sepJoin ((' ' :: y) :: L) := by
  cases L with
  | nil => rfl
  | cons z L' => simp [sepJoin]

theorem joinComma_sepJoin : ∀ rds, joinComma rds = sepJoin (decChunks rds) := by
  intro rds
  induction rds with
  | nil => rfl
  | cons x xs ih =>
    cases xs with
    | nil => rfl
    | cons y r =>
      have h0 : joinComma (x :: y :: r) = x ++ ',' :: ' ' :: joinComma (y :: r) := rfl
      rw [h0, ih]
      have h2 : decChunks (x :: y :: r) = x :: (' ' :: y) :: r.map (fun l => ' ' :: l) := rfl
      rw [h2]
      have h3 : sepJoin (x :: (' ' :: y) :: r.map (fun l => ' ' :: l))
          = x ++ ',' :: sepJoin ((' ' :: y) :: r.map (fun l => ' ' :: l)) := rfl
      rw [h3, ← sepJoin_cons_space]
      rw [show decChunks (y :: r) = y :: r.map (fun l => ' ' :: l) from rfl]

theorem renderInt_cases (i : Int) (c : Char) (hc : c ∈ renderIntChars i) :
    c = '-' ∨ c.isDigit = true := by
  unfold renderIntChars at hc
  split at hc
  · rcases List.mem_cons.mp hc with rfl | h
    · left; rfl
    · right; exact natDigits_all_digit _ c h
  · right; exact natDigits_all_digit _ c hc

theorem renderInt_ne_nil (i : Int) : renderIntChars i ≠ [] := by
  unfold renderIntChars
  split
  · simp
  · exact natDigits_ne_nil _

theorem renderDec_ne_nil (d : Dec) : renderDecChars d ≠ [] := by
  unfold renderDecChars
  intro h
  simp at h

theorem numChar_facts (c : Char) (h : c = '-' ∨ c = '.' ∨ c.isDigit = true) :
    isSpaceCh c = false ∧ ¬(c = '\n') ∧ ¬(c = lbrace) ∧ chunkChar c ∧
      spaceTab c = false ∧ ¬(c = '\x0d') := by
  rcases h with rfl | rfl | h
  · exact ⟨by decide, by decide, by decide, ⟨by decide, by decide, by decide⟩,
      by decide, by decide⟩
  · exact ⟨by decide, by decide, by decide, ⟨by decide, by decide, by decide⟩,
      by decide, by decide⟩
  · obtain ⟨⟨hsp, hc1, hc2, hc3, hc4, hc5⟩, _, _, _, hnl⟩ := isDigit_facts c h
    have hst : spaceTab c = false := by
      by_contra hh
      rw [Bool.not_eq_false] at hh
      simp [spaceTab] at hh
      rcases hh with rfl | rfl <;> exact absurd hsp (by decide)
    have hcr : ¬(c = '\x0d') := by
      intro hh
      rw [hh] at hsp
      exact absurd hsp (by decide)
    exact ⟨hsp, hnl, hc4, ⟨hc1, hc2, hc3⟩, hst, hcr⟩

theorem renderDec_strip (d : Dec) (hwf : decWF d) :
    pyStrip (renderDecChars d) = renderDecChars d :=
  pyStrip_no_ws _ (fun c hc => (numChar_facts c (renderDec_cases d hwf c hc)).1)

theorem decChunks_strip (rds : List (List Char)) (h : ∀ rd ∈ rds, pyStrip rd = rd) :
    (decChunks rds).map pyStrip = rds := by
  cases rds with
  | nil => rfl
  | cons x xs =>
    simp only [decChunks, List.map_cons, List.map_map]
    rw [h x (List.mem_cons_self _ _)]
    congr 1
    have hall : ∀ l ∈ xs, (pyStrip ∘ fun l => ' ' :: l) l = id l := fun l hl =>
      (pyStrip_cons_space l).trans (h l (List.mem_cons_of_mem _ hl))
    rw [List.map_congr_left hall, List.map_id]

theorem decChunks_safe (rds : List (List Char))
    (hne : ∀ rd ∈ rds, rd ≠ []) (hch : ∀ rd ∈ rds, ∀ x ∈ rd, chunkChar x) :
    ∀ ch ∈ decChunks rds, ch ≠ [] ∧ ∀ x ∈ ch, chunkChar x := by
  cases rds with
  | nil => intro ch hc; simp [decChunks] at hc
  | cons x xs =>
    intro ch hc
    simp only [decChunks, List.mem_cons] at hc
    rcases hc with rfl | hc
    · exact ⟨hne _ (List.mem_cons_self _ _), hch _ (List.mem_cons_self _ _)⟩
    · obtain ⟨l, hl, rfl⟩ := List.mem_map.mp hc
      refine ⟨by simp, ?_⟩
      intro y hy
      rcases List.mem_cons.mp hy with rfl | hy
      · exact ⟨by decide, by decide, by decide⟩
      · exact hch l (List.mem_cons_of_mem _ hl) y hy

theorem parseEntriesF_step_scalar (k : String) (v0 : Char) (vs rest : List Char) (f : Nat)
    (hk : keyOK k)
    (hplain : ∀ c ∈ v0 :: vs, isSpaceCh c = false ∧ ¬(c = '\n') ∧ ¬(c = lbrace)) :
    parseEntriesF (f + 1) (k.data ++ ' ' :: '=' :: ' ' :: v0 :: (vs ++ '\n' :: rest)) =
      (parseEntriesF f rest).map (fun es => (k.data, RawVal.scalar (v0 :: vs)) :: es) := by
  obtain ⟨hk1, hk2, hk3, _⟩ := hk
  obtain ⟨ka, ks, hkd⟩ : ∃ a b, k.data = a :: b := by
    cases hcs : k.data with
    | nil => exact absurd hcs hk1
    | cons a b => exact ⟨a, b, rfl⟩
  have h1 := parse_identifier_entry k.data (' ' :: v0 :: (vs ++ '\n' :: rest)) hk2
  rw [hk3] at h1
  have hsp : spaceTab v0 = false := by
    have hv := (hplain v0 (List.mem_cons_self _ _)).1
    by_contra hh
    rw [Bool.not_eq_false] at hh
    simp [spaceTab] at hh
    rcases hh with rfl | rfl <;> exact absurd hv (by decide)
  have h2 := parse_assignment_entry v0 (vs ++ '\n' :: rest) hsp
  have h3 := parse_value_scalar v0 vs rest (fun c hc => (hplain c hc).2.1)
    ((hplain v0 (List.mem_cons_self _ _)).2.2)
  rw [hkd] at h1 ⊢
  simp only [List.cons_append] at h1 ⊢
  simp only [parseEntriesF, h1, h2, h3]
  cases hres : parseEntriesF f rest <;> simp [hres, Except.map]

theorem parseEntriesF_step_list (k : String) (chunks : List (List Char)) (rest : List Char)
    (f : Nat) (hk : keyOK k)
    (hsafe : ∀ ch ∈ chunks, ch ≠ [] ∧ ∀ x ∈ ch, chunkChar x) :
    parseEntriesF (f + 1)
      (k.data ++ ' ' :: '=' :: ' ' :: lbrace :: (sepJoin chunks ++ rbrace :: '\n' :: rest)) =
      (parseEntriesF f rest).map
        (fun es => (k.data, RawVal.list (chunks.map pyStrip)) :: es) := by
  obtain ⟨hk1, hk2, hk3, _⟩ := hk
  obtain ⟨ka, ks, hkd⟩ : ∃ a b, k.data = a :: b := by
    cases hcs : k.data with
    | nil => exact absurd hcs hk1
    | cons a b => exact ⟨a, b, rfl⟩
  have h1 := parse_identifier_entry k.data
    (' ' :: lbrace :: (sepJoin chunks ++ rbrace :: '\n' :: rest)) hk2
  rw [hk3] at h1
  have h2 := parse_assignment_entry lbrace (sepJoin chunks ++ rbrace :: '\n' :: rest)
    (by decide)
  have h3 := parse_value_list chunks rest hsafe
  rw [hkd] at h1 ⊢
  simp only [List.cons_append] at h1 ⊢
  simp only [parseEntriesF, h1, h2, h3]
  cases hres : parseEntriesF f rest <;> simp [hres, Except.map]

theorem mapME_length {α β : Type} (f : α → Except PyErr β) :
    ∀ (l : List α) (bs : List β), mapME f l = .ok bs → bs.length = l.length := by
  intro l
  induction l with
  | nil => intro bs h; simp [mapME] at h; simp [← h]
  | cons a r ih =>
    intro bs h
    simp only [mapME] at h
    cases hf : f a with
    | error e => rw [hf] at h; simp at h
    | ok b =>
      rw [hf] at h
      cases hr : mapME f r with
      | error e => rw [hr] at h; simp at h
      | ok bs' =>
        rw [hr] at h
        simp at h
        rw [← h]
        simp [ih bs' hr]

theorem mapME_mem {α β : Type} (f : α → Except PyErr β) :
    ∀ (l : List α) (bs : List β), mapME f l = .ok bs →
      ∀ b ∈ bs, ∃ a ∈ l, f a = .ok b := by
  intro l
  induction l with
  | nil => intro bs h; simp [mapME] at h; subst h; simp
  | cons a r ih =>
    intro bs h
    simp only [mapME] at h
    cases hf : f a with
    | error e => rw [hf] at h; simp at h
    | ok b =>
      rw [hf] at h
      cases hr : mapME f r with
      | error e => rw [hr] at h; simp at h
      | ok bs' =>
        rw [hr] at h
        simp at h
        rw [← h]
        intro b' hb'
        rcases List.mem_cons.mp hb' with rfl | hb'
        · exact ⟨a, List.mem_cons_self _ _, hf⟩
        · obtain ⟨a', ha', hfa'⟩ := ih bs' hr b' hb'
          exact ⟨a', List.mem_cons_of_mem _ ha', hfa'⟩

theorem mapME_exists {α β : Type} (f : α → Except PyErr β) :
    ∀ (l : List α), (∀ a ∈ l, ∃ b, f a = .ok b) → ∃ bs, mapME f l = .ok bs := by
  intro l
  induction l with
  | nil => intro; exact ⟨[], rfl⟩
  | cons a r ih =>
    intro h
    obtain ⟨b, hb⟩ := h a (List.mem_cons_self _ _)
    obtain ⟨bs, hbs⟩ := ih (fun x hx => h x (List.mem_cons_of_mem _ hx))
    exact ⟨b :: bs, by simp only [mapME, hb, hbs]⟩

theorem mapME_ok_of_all {α β : Type} (f : β → Except PyErr α) (g : α → β) :
    ∀ (l : List α), (∀ a ∈ l, f (g a) = .ok a) → mapME f (l.map g) = .ok l := by
  intro l
  induction l with
  | nil => intro; rfl
  | cons a r ih =>
    intro h
    have ha := h a (List.mem_cons_self _ _)
    have hr := ih (fun x hx => h x (List.mem_cons_of_mem _ hx))
    simp only [List.map_cons, mapME, ha, hr]

theorem parseEntriesF_all : ∀ (hdr : Header) (f : Nat) (lines : List (List Char)),
    (∀ kv ∈ hdr, keyOK kv.1 ∧ supportedEntry kv.1 kv.2) →
    mapME (fun kv => writeEntryChars kv.1 kv.2) hdr = .ok lines →
    hdr.length < f →
    parseEntriesF f lines.flatten =
      .ok (hdr.map (fun kv => (kv.1.data, rawOf kv.2))) := by
  intro hdr
  induction hdr with
  | nil =>
    intro f lines _ hm hf
    obtain ⟨g, rfl⟩ : ∃ g, f = g + 1 := ⟨f - 1, by omega⟩
    simp [mapME] at hm
    rw [hm]
    rfl
  | cons kv hdr' ih =>
    obtain ⟨k, v⟩ := kv
    intro f lines hsup hm hf
    obtain ⟨g, rfl⟩ : ∃ g, f = g + 1 := ⟨f - 1, by omega⟩
    simp only [mapME] at hm
    cases hw : writeEntryChars k v with
    | error e => rw [hw] at hm; simp at hm
    | ok line =>
      rw [hw] at hm
      cases hm' : mapME (fun kv => writeEntryChars kv.1 kv.2) hdr' with
      | error e => rw [hm'] at hm; simp at hm
      | ok ls' =>
        rw [hm'] at hm
        simp only [Except.ok.injEq] at hm
        rw [← hm]
        obtain ⟨hkOK, hsupE⟩ := hsup (k, v) (List.mem_cons_self _ _)
        have hrec := ih g ls' (fun kv hkv => hsup kv (List.mem_cons_of_mem _ hkv)) hm'
          (by simp at hf; omega)
        rcases hsupE with ⟨hkInt, n, hv⟩ | ⟨hkFlt, ⟨d, hv, hwf⟩ | ⟨ds, hv, hwf⟩⟩
        · subst hv
          simp only [writeEntryChars, Except.ok.injEq] at hw
          obtain ⟨v0, vs, hrI⟩ : ∃ a b, renderIntChars n = a :: b := by
            cases hcs : renderIntChars n with
            | nil => exact absurd hcs (renderInt_ne_nil n)
            | cons a b => exact ⟨a, b, rfl⟩
          have hshape : line ++ ls'.flatten =
              k.data ++ ' ' :: '=' :: ' ' :: v0 :: (vs ++ '\n' :: ls'.flatten) := by
            rw [← hw, hrI]
            simp
          have hplain : ∀ c ∈ v0 :: vs, isSpaceCh c = false ∧ ¬(c = '\n') ∧ ¬(c = lbrace) := by
            intro c hc
            have hmem : c ∈ renderIntChars n := by rw [hrI]; exact hc
            have hcase := renderInt_cases n c hmem
            have hfacts := numChar_facts c
              (by rcases hcase with h | h; exacts [Or.inl h, Or.inr (Or.inr h)])
            exact ⟨hfacts.1, hfacts.2.1, hfacts.2.2.1⟩
          rw [List.flatten_cons, hshape,
            parseEntriesF_step_scalar k v0 vs (ls'.flatten) g hkOK hplain, hrec]
          simp [rawOf, hrI, Except.map]
        · subst hv
          simp only [writeEntryChars, Except.ok.injEq] at hw
          obtain ⟨v0, vs, hrI⟩ : ∃ a b, renderDecChars d = a :: b := by
            cases hcs : renderDecChars d with
            | nil => exact absurd hcs (renderDec_ne_nil d)
            | cons a b => exact ⟨a, b, rfl⟩
          have hshape : line ++ ls'.flatten =
              k.data ++ ' ' :: '=' :: ' ' :: v0 :: (vs ++ '\n' :: ls'.flatten) := by
            rw [← hw, hrI]
            simp
          have hplain : ∀ c ∈ v0 :: vs, isSpaceCh c = false ∧ ¬(c = '\n') ∧ ¬(c = lbrace) := by
            intro c hc
            have hmem : c ∈ renderDecChars d := by rw [hrI]; exact hc
            have hfacts := numChar_facts c (renderDec_cases d hwf c hmem)
            exact ⟨hfacts.1, hfacts.2.1, hfacts.2.2.1⟩
          rw [List.flatten_cons, hshape,
            parseEntriesF_step_scalar k v0 vs (ls'.flatten) g hkOK hplain, hrec]
          simp [rawOf, hrI, Except.map]
        · subst hv
          simp only [writeEntryChars, Except.ok.injEq] at hw
          have hshape : line ++ ls'.flatten =
              k.data ++ ' ' :: '=' :: ' ' :: lbrace ::
                (sepJoin (decChunks (ds.map renderDecChars)) ++ rbrace :: '\n' :: ls'.flatten) := by
            rw [← hw, joinComma_sepJoin]
            simp
          have hsafe : ∀ ch ∈ decChunks (ds.map renderDecChars),
              ch ≠ [] ∧ ∀ x ∈ ch, chunkChar x := by
            apply decChunks_safe
            · intro rd hrd
              obtain ⟨d, _, rfl⟩ := List.mem_map.mp hrd
              exact renderDec_ne_nil d
            · intro rd hrd x hx
              obtain ⟨d, hd, rfl⟩ := List.mem_map.mp hrd
              exact (numChar_facts x (renderDec_cases d (hwf d hd) x hx)).2.2.2.1
          have hstrip : (decChunks (ds.map renderDecChars)).map pyStrip = ds.map renderDecChars := by
            apply decChunks_strip
            intro rd hrd
            obtain ⟨d, hd, rfl⟩ := List.mem_map.mp hrd
            exact renderDec_strip d (hwf d hd)
          rw [List.flatten_cons, hshape,
            parseEntriesF_step_list k (decChunks (ds.map renderDecChars)) (ls'.flatten) g hkOK hsafe,
            hrec]
          simp [rawOf, hstrip, Except.map]

theorem dictInsert_append {α : Type} (l : List (String × α)) (k : String) (v : α)
    (h : ∀ kv ∈ l, kv.1 ≠ k) : dictInsert l k v = l ++ [(k, v)] := by
  induction l with
  | nil => rfl
  | cons a r ih =>
    obtain ⟨k', v'⟩ := a
    have hk' : k' ≠ k := h (k', v') (List.mem_cons_self _ _)
    simp [dictInsert, hk', ih (fun kv hkv => h kv (List.mem_cons_of_mem _ hkv))]

theorem foldl_dictInsert {α : Type} : ∀ (l acc : List (String × α)),
    (∀ kv ∈ l, ∀ kv' ∈ acc, kv'.1 ≠ kv.1) →
    (l.map Prod.fst).Nodup →
    l.foldl (fun h kv => dictInsert h kv.1 kv.2) acc = acc ++ l := by
  intro l
  induction l with
  | nil => intro acc _ _; simp
  | cons a r ih =>
    intro acc hacc hnd
    simp only [List.map_cons, List.nodup_cons] at hnd
    simp only [List.foldl_cons]
    rw [dictInsert_append acc a.1 a.2 (fun kv hkv => hacc a (List.mem_cons_self _ _) kv hkv)]
    rw [ih (acc ++ [(a.1, a.2)]) ?hacc2 hnd.2]
    · simp
    case hacc2 =>
      intro kv hkv kv' hkv'
      rcases List.mem_append.mp hkv' with hkv' | hkv'
      · exact hacc kv (List.mem_cons_of_mem _ hkv) kv' hkv'
      · simp at hkv'
        rw [hkv']
        intro hh
        exact hnd.1 (hh ▸ List.mem_map.mpr ⟨kv, hkv, rfl⟩)

theorem foldl_dictInsert_lower {α : Type} : ∀ (l acc : List (String × α)),
    (∀ kv ∈ l, pyLowerStr kv.1 = kv.1) →
    l.foldl (fun h kv => dictInsert h (pyLowerStr kv.1) kv.2) acc
      = l.foldl (fun h kv => dictInsert h kv.1 kv.2) acc := by
  intro l
  induction l with
  | nil => intro acc _; rfl
  | cons a r ih =>
    intro acc hlow
    simp only [List.foldl_cons]
    rw [hlow a (List.mem_cons_self _ _)]
    exact ih _ (fun kv hkv => hlow kv (List.mem_cons_of_mem _ hkv))

theorem intKey_lookup : ∀ k ∈ intKeys, pyLookup fieldTypesTable k = some .tInt := by decide

theorem fltKey_lookup : ∀ k ∈ fltKeys, pyLookup fieldTypesTable k = some .tFlt := by decide

theorem intKey_OK : ∀ k ∈ intKeys, keyOK k ∧ pyLowerStr k = k := by decide

theorem fltKey_OK : ∀ k ∈ fltKeys, keyOK k ∧ pyLowerStr k = k := by decide

theorem coerce_entry (k : String) (v : HVal) (hsup : supportedEntry k v) :
    coerceVal (pyLookup fieldTypesTable k) (rawOf v) = .ok v := by
  rcases hsup with ⟨hkInt, n, rfl⟩ | ⟨hkFlt, ⟨d, rfl, hwf⟩ | ⟨ds, rfl, hwf⟩⟩
  · rw [intKey_lookup k hkInt]
    simp only [rawOf, coerceVal, pyIntCore_renderInt, Except.map]
  · rw [fltKey_lookup k hkFlt]
    simp only [rawOf, coerceVal, pyFloatCore_renderDec d hwf, Except.map]
  · rw [fltKey_lookup k hkFlt]
    simp only [rawOf, coerceVal]
    rw [mapME_ok_of_all pyFloatCore renderDecChars ds
      (fun d hd => pyFloatCore_renderDec d (hwf d hd))]
    simp [Except.map]

theorem fixFieldTypes_raw (hdr : Header)
    (hsup : ∀ kv ∈ hdr, supportedEntry kv.1 kv.2) :
    fixFieldTypes (hdr.map (fun kv => (kv.1, rawOf kv.2))) = .ok hdr := by
  unfold fixFieldTypes
  apply mapME_ok_of_all
  intro kv hkv
  rw [coerce_entry kv.1 kv.2 (hsup kv hkv)]
  simp [Except.map]

theorem replaceCRLF_no_cr : ∀ l : List Char, (∀ c ∈ l, ¬(c = '\x0d')) → replaceCRLF l = l := by
  intro l
  induction l with
  | nil => intro _; rfl
  | cons a r ih =>
    intro h
    have ha := h a (List.mem_cons_self _ _)
    have hr := ih (fun c hc => h c (List.mem_cons_of_mem _ hc))
    cases r with
    | nil => simp [replaceCRLF, ha]
    | cons b r' => simp [replaceCRLF, ha, hr]

theorem mem_joinComma : ∀ (L : List (List Char)) (c : Char), c ∈ joinComma L →
    c = ',' ∨ c = ' ' ∨ ∃ l ∈ L, c ∈ l := by
  intro L
  induction L with
  | nil => intro c hc; simp [joinComma] at hc
  | cons x r ih =>
    intro c hc
    cases r with
    | nil => exact Or.inr (Or.inr ⟨x, List.mem_cons_self _ _, hc⟩)
    | cons y r' =>
      rw [show joinComma (x :: y :: r') = x ++ ',' :: ' ' :: joinComma (y :: r') from rfl] at hc
      rcases List.mem_append.mp hc with hx | hc
      · exact Or.inr (Or.inr ⟨x, List.mem_cons_self _ _, hx⟩)
      · rcases List.mem_cons.mp hc with rfl | hc
        · exact Or.inl rfl
        · rcases List.mem_cons.mp hc with rfl | hc
          · exact Or.inr (Or.inl rfl)
          · rcases ih c hc with h | h | ⟨l, hl, hcl⟩
            · exact Or.inl h
            · exact Or.inr (Or.inl h)
            · exact Or.inr (Or.inr ⟨l, List.mem_cons_of_mem _ hl, hcl⟩)

theorem line_shape (k : String) (v : HVal) (line : List Char)
    (hk : keyOK k) (hsup : supportedEntry k v)
    (hw : writeEntryChars k v = .ok line) :
    (∃ i, line = i ++ ['\n']) ∧ ∀ c ∈ line, ¬(c = '\x0d') := by
  have hkcr := hk.2.2.2
  have heqcr : ∀ x ∈ ([' ', '=', ' '] : List Char), ¬(x = '\x0d') := by decide
  rcases hsup with ⟨hkInt, n, rfl⟩ | ⟨hkFlt, ⟨d, rfl, hwf⟩ | ⟨ds, rfl, hwf⟩⟩
  · simp only [writeEntryChars, Except.ok.injEq] at hw
    constructor
    · exact ⟨k.data ++ [' ', '=', ' '] ++ renderIntChars n, hw.symm⟩
    · intro c hc
      rw [← hw] at hc
      rcases List.mem_append.mp hc with hc | hc
      · rcases List.mem_append.mp hc with hc | hc
        · rcases List.mem_append.mp hc with hc | hc
          · exact hkcr c hc
          · exact heqcr c hc
        · exact (numChar_facts c
            ((renderInt_cases n c hc).elim Or.inl (fun h => Or.inr (Or.inr h)))).2.2.2.2.2
      · exact (by decide : ∀ x ∈ (['\n'] : List Char), ¬(x = '\x0d')) c hc
  · simp only [writeEntryChars, Except.ok.injEq] at hw
    constructor
    · exact ⟨k.data ++ [' ', '=', ' '] ++ renderDecChars d, hw.symm⟩
    · intro c hc
      rw [← hw] at hc
      rcases List.mem_append.mp hc with hc | hc
      · rcases List.mem_append.mp hc with hc | hc
        · rcases List.mem_append.mp hc with hc | hc
          · exact hkcr c hc
          · exact heqcr c hc
        · exact (numChar_facts c (renderDec_cases d hwf c hc)).2.2.2.2.2
      · exact (by decide : ∀ x ∈ (['\n'] : List Char), ¬(x = '\x0d')) c hc
  · simp only [writeEntryChars, Except.ok.injEq] at hw
    constructor
    · refine ⟨(k.data ++ [' ', '=', ' '] ++
        lbrace :: joinComma (List.map renderDecChars ds)) ++ [rbrace], ?_⟩
      rw [← hw]
      simp
    · intro c hc
      rw [← hw] at hc
      rcases List.mem_append.mp hc with hc | hc
      · rcases List.mem_append.mp hc with hc | hc
        · rcases List.mem_append.mp hc with hc | hc
          · exact hkcr c hc
          · exact heqcr c hc
        · rcases List.mem_cons.mp hc with rfl | hc
          · decide
          · rcases mem_joinComma _ c hc with rfl | rfl | ⟨l, hl, hcl⟩
            · decide
            · decide
            · obtain ⟨e, he, rfl⟩ := List.mem_map.mp hl
              exact (numChar_facts c (renderDec_cases e (hwf e he) c hcl)).2.2.2.2.2
      · exact (by decide : ∀ x ∈ ([rbrace, '\n'] : List Char), ¬(x = '\x0d')) c hc

theorem flatten_ends_nl : ∀ (lines : List (List Char)),
    (∀ l ∈ lines, ∃ i, l = i ++ ['\n']) → lines ≠ [] →
    ∃ j, lines.flatten = j ++ ['\n'] := by
  intro lines
  induction lines with
  | nil => intro _ hh; exact absurd rfl hh
  | cons a r ih =>
    intro h _
    cases r with
    | nil =>
      obtain ⟨i, hi⟩ := h a (List.mem_cons_self _ _)
      exact ⟨i, by simp [hi]⟩
    | cons b r' =>
      obtain ⟨j, hj⟩ := ih (fun l hl => h l (List.mem_cons_of_mem _ hl)) (by simp)
      exact ⟨a ++ j, by simp [hj]⟩

theorem length_le_flatten : ∀ (lines : List (List Char)),
    (∀ l ∈ lines, l ≠ []) → lines.length ≤ lines.flatten.length := by
  intro lines
  induction lines with
  | nil => intro _; simp
  | cons a r ih =>
    intro h
    have ha : 1 ≤ a.length := by
      cases hcs : a with
      | nil => exact absurd hcs (h a (List.mem_cons_self _ _))
      | cons x y => simp
    have := ih (fun l hl => h l (List.mem_cons_of_mem _ hl))
    simp only [List.length_cons, List.flatten_cons, List.length_append]
    omega

theorem folds_raw (hdr : Header) (hlow : ∀ kv ∈ hdr, pyLowerStr kv.1 = kv.1)
    (hnodup : (hdr.map Prod.fst).Nodup) :
    ((hdr.map (fun kv => (kv.1.data, rawOf kv.2))).foldl
        (fun h kv => dictInsert h (String.mk kv.1) kv.2)
        ([] : List (String × RawVal))).foldl
      (fun h kv => dictInsert h (pyLowerStr kv.1) kv.2) ([] : List (String × RawVal))
      = hdr.map (fun kv => (kv.1, rawOf kv.2)) := by
  have hkeys : (hdr.map (fun kv => (kv.1, rawOf kv.2))).map Prod.fst = hdr.map Prod.fst := by
    simp [List.map_map]
  have ha : (hdr.map (fun kv => (kv.1.data, rawOf kv.2))).foldl
      (fun h kv => dictInsert h (String.mk kv.1) kv.2) ([] : List (String × RawVal))
      = hdr.foldl (fun h kv => dictInsert h kv.1 (rawOf kv.2)) [] := by
    rw [List.foldl_map]
  have hb : (hdr.map (fun kv => ((kv.1, rawOf kv.2) : String × RawVal))).foldl
      (fun h kv => dictInsert h kv.1 kv.2) ([] : List (String × RawVal))
      = hdr.foldl (fun h kv => dictInsert h kv.1 (rawOf kv.2)) [] := by
    rw [List.foldl_map]
  have h1 : (hdr.map (fun kv => (kv.1.data, rawOf kv.2))).foldl
      (fun h kv => dictInsert h (String.mk kv.1) kv.2) ([] : List (String × RawVal))
      = hdr.map (fun kv => (kv.1, rawOf kv.2)) := by
    rw [ha, ← hb]
    rw [foldl_dictInsert _ _ (by intro kv _ kv' hkv'; simp at hkv') (by rw [hkeys]; exact hnodup)]
    simp
  rw [h1]
  rw [foldl_dictInsert_lower]
  · rw [foldl_dictInsert _ _ (by intro kv _ kv' hkv'; simp at hkv')
      (by rw [hkeys]; exact hnodup)]
    simp
  · intro kv hkv
    obtain ⟨kv0, hkv0, rfl⟩ := List.mem_map.mp hkv
    exact hlow kv0 hkv0

theorem write_supported (k : String) (v : HVal) (hsup : supportedEntry k v) :
    ∃ line, writeEntryChars k v = .ok line := by
  rcases hsup with ⟨_, n, rfl⟩ | ⟨_, ⟨d, rfl, _⟩ | ⟨ds, rfl, _⟩⟩ <;> exact ⟨_, rfl⟩

theorem parse_envi_header_reduce (cs : List Char)
    (hcrlf : replaceCRLF cs = cs) (hlast : cs.getLast? = some '\n')
    (htake : cs.take 5 = "ENVI\n".data) :
    parse_envi_header (String.mk cs) =
      match parseEntriesF (cs.length + 1) (cs.drop 5) with
      | .error e => .error e
      | .ok entries =>
        fixFieldTypes ((entries.foldl (fun h kv => dictInsert h (String.mk kv.1) kv.2)
          ([] : List (String × RawVal))).foldl
          (fun h kv => dictInsert h (pyLowerStr kv.1) kv.2)
          ([] : List (String × RawVal))) := by
  unfold parse_envi_header
  simp only [show (String.mk cs).data = cs from rfl, hcrlf, hlast]
  rw [if_pos trivial]
  rw [htake]
  rw [if_pos (show "ENVI\n".data = ['E', 'N', 'V', 'I', '\n'] by decide)]

theorem parse_write_roundtrip (hdr : Header)
    (hsup : ∀ kv ∈ hdr, supportedEntry kv.1 kv.2)
    (hkOK : ∀ kv ∈ hdr, keyOK kv.1)
    (hlow : ∀ kv ∈ hdr, pyLowerStr kv.1 = kv.1)
    (hnodup : (hdr.map Prod.fst).Nodup)
    (lines : List (List Char))
    (hm : mapME (fun kv => writeEntryChars kv.1 kv.2) hdr = .ok lines) :
    parse_envi_header (String.mk ("ENVI\n".data ++ lines.flatten)) = .ok hdr := by
  have hlineF : ∀ l ∈ lines, (∃ i, l = i ++ ['\n']) ∧ ∀ c ∈ l, ¬(c = '\x0d') := by
    intro l hl
    obtain ⟨kv, hkv, hwkv⟩ := mapME_mem _ hdr lines hm l hl
    exact line_shape kv.1 kv.2 l (hkOK kv hkv) (hsup kv hkv) hwkv
  have hnocr : ∀ c ∈ "ENVI\n".data ++ lines.flatten, ¬(c = '\x0d') := by
    intro c hc
    rcases List.mem_append.mp hc with hc | hc
    · exact (by decide : ∀ x ∈ "ENVI\n".data, ¬(x = '\x0d')) c hc
    · obtain ⟨l, hl, hcl⟩ := List.mem_flatten.mp hc
      exact (hlineF l hl).2 c hcl
  have hcrlf : replaceCRLF ("ENVI\n".data ++ lines.flatten) = "ENVI\n".data ++ lines.flatten :=
    replaceCRLF_no_cr _ hnocr
  have hlast : ("ENVI\n".data ++ lines.flatten).getLast? = some '\n' := by
    cases lines with
    | nil => decide
    | cons a r =>
      obtain ⟨j, hj⟩ := flatten_ends_nl (a :: r) (fun l hl => (hlineF l hl).1) (by simp)
      rw [hj, ← List.append_assoc]
      exact List.getLast?_concat _
  have htake : ("ENVI\n".data ++ lines.flatten).take 5 = "ENVI\n".data := by
    rw [show (5 : Nat) = ("ENVI\n".data).length by rfl]
    exact List.take_left _ _
  have hdrop : ("ENVI\n".data ++ lines.flatten).drop 5 = lines.flatten := by
    rw [show (5 : Nat) = ("ENVI\n".data).length by rfl]
    exact List.drop_left _ _
  have hlen : hdr.length < ("ENVI\n".data ++ lines.flatten).length + 1 := by
    have h1 : lines.length = hdr.length := mapME_length _ hdr lines hm
    have h2 : lines.length ≤ lines.flatten.length := length_le_flatten lines (fun l hl => by
      obtain ⟨i, hi⟩ := (hlineF l hl).1
      rw [hi]
      simp)
    simp only [List.length_append]
    omega
  have hentries := parseEntriesF_all hdr (("ENVI\n".data ++ lines.flatten).length + 1) lines
    (fun kv hkv => ⟨hkOK kv hkv, hsup kv hkv⟩) hm hlen
  rw [parse_envi_header_reduce ("ENVI\n".data ++ lines.flatten) hcrlf hlast htake, hdrop,
    hentries]
  simp only [folds_raw hdr hlow hnodup, fixFieldTypes_raw hdr hsup]

/-- C7: amended round trip for the serializable fragment of the type table.
For a header whose keys are integer-typed or float-typed table keys with
matching value shapes (integer scalars; well-formed float scalars or float
lists) and no duplicate keys, `write_envi`'s serialization loop succeeds and
`parse_envi_header` reconstructs exactly the original typed mapping. -/
theorem c7_roundtrip_supported (hdr : Header)
    (hkeys : ∀ kv ∈ hdr, supportedEntry kv.1 kv.2)
    (hnodup : (hdr.map Prod.fst).Nodup) :
    ∃ txt, write_envi_text hdr = .ok txt ∧ parse_envi_header txt = .ok hdr := by
  have hkOK : ∀ kv ∈ hdr, keyOK kv.1 ∧ pyLowerStr kv.1 = kv.1 := by
    intro kv hkv
    rcases hkeys kv hkv with ⟨hkInt, _⟩ | ⟨hkFlt, _⟩
    · exact intKey_OK kv.1 hkInt
    · exact fltKey_OK kv.1 hkFlt
  obtain ⟨lines, hm⟩ := mapME_exists (fun kv => writeEntryChars kv.1 kv.2) hdr
    (fun kv hkv => write_supported kv.1 kv.2 (hkeys kv hkv))
  refine ⟨String.mk ("ENVI\n".data ++ lines.flatten), ?_, ?_⟩
  · unfold write_envi_text
    rw [hm]
    rfl
  · exact parse_write_roundtrip hdr hkeys (fun kv hkv => (hkOK kv hkv).1)
      (fun kv hkv => (hkOK kv hkv).2) hnodup lines hm

/-- C7 witness: a concrete two-entry header (an integer `bands` and a
two-element float `wavelength` list) round trips. -/
theorem c7_roundtrip_supported_witness :
    ∃ txt, write_envi_text [("bands", HVal.vInt 3),
        ("wavelength", HVal.vFltList [⟨false, 1, [5]⟩, ⟨true, 2, [2, 5]⟩])] = .ok txt ∧
      parse_envi_header txt = .ok [("bands", HVal.vInt 3),
        ("wavelength", HVal.vFltList [⟨false, 1, [5]⟩, ⟨true, 2, [2, 5]⟩])] :=
  c7_roundtrip_supported _
    (by
      intro kv hkv
      simp only [List.mem_cons, List.not_mem_nil, or_false] at hkv
      rcases hkv with rfl | rfl
      · exact Or.inl ⟨by decide, 3, rfl⟩
      · exact Or.inr ⟨by decide, Or.inr ⟨_, rfl, by decide⟩⟩)
    (by decide)

end Envi
